import Mathlib

/-!
Verification development for the PFTerrainData2 tile service (`src/app.py`).

The Python source is shallowly embedded as follows:

* RGB pixels are triples of natural numbers; a tile grid is a list of rows,
  each row a list of pixels (the JSON representation used by the service).
* Python list indexing `l[i]` with an `int` index is modelled by `pyIdx`,
  which implements Python's negative-index semantics and returns `none`
  exactly when Python would raise `IndexError`.
* Python float arithmetic is idealised as exact arithmetic: rationals for
  request parameters and for the resampler inputs, reals for the Web-Mercator
  projection math (which involves `sin`, `log`, `atan`, `sinh`).
* The flat file-per-tile cache directory is modelled as an association list
  from tile keys to grids; the external WMTS provider is an oracle function.
-/

/-- An RGB pixel: one 8-bit channel value per colour, stored as naturals
(the JSON tile representation produced by `arr.tolist()` in the source). -/
structure RGB where
  r : ℕ
  g : ℕ
  b : ℕ
deriving DecidableEq, Repr

/-- A tile pixel grid, as decoded from the cached JSON: a list of rows of
RGB pixels.  A well-formed tile is 256 × 256. -/
abbrev TileGrid : Type := List (List RGB)

/-- The output raster of the `/bbox` endpoint: rows of RGB pixels. -/
abbrev Texture : Type := List (List RGB)

/-- Python list indexing with an integer index: a nonnegative index `i` reads
position `i`, a negative index `i` with `-len ≤ i` reads position `len + i`,
and anything else raises `IndexError` (modelled as `none`). -/
def pyIdx {α : Type} (l : List α) (i : ℤ) : Option α :=
  if 0 ≤ i then l.get? i.toNat
  else if 0 ≤ i + l.length then l.get? (i + l.length).toNat
  else none

/-- The low integer neighbour used by `bilinear_sample` in the source:
`x0 = int(np.floor(px))`. -/
def nbr0 {K : Type} [LinearOrderedField K] [FloorRing K] (p : K) : ℤ := ⌊p⌋

/-- The high integer neighbour used by `bilinear_sample` in the source:
`x1 = min(x0 + 1, 255)`, clamped at the far edge of a 256-sized tile. -/
def nbr1 {K : Type} [LinearOrderedField K] [FloorRing K] (p : K) : ℤ :=
  min (⌊p⌋ + 1) 255

/-- The channel-wise bilinear interpolation expression from the source:
`top = c00*(1-fx) + c10*fx`, `bottom = c01*(1-fx) + c11*fx`, and the result
`top*(1-fy) + bottom*fy`, for one colour channel. -/
def interp {K : Type} [LinearOrderedField K] (a b c d : ℕ) (fx fy : K) : K :=
  ((a : K) * (1 - fx) + (b : K) * fx) * (1 - fy)
    + ((c : K) * (1 - fx) + (d : K) * fx) * fy

/-- Truncation performed by `.astype(np.uint8)` on the interpolated channel
values.  The cast truncates toward zero; every value produced by
`bilinear_sample` is a convex combination of nonnegative channel values, and
on nonnegative reals truncation toward zero coincides with `Int.floor`. -/
def astypeUint8 {K : Type} [LinearOrderedField K] [FloorRing K] (v : K) : ℕ :=
  (⌊v⌋).toNat

/-- Function `bilinear_sample` from `src/app.py`: floor the fractional coordinates to
get `x0, y0`, clamp `x1 = min(x0+1, 255)`, `y1 = min(y0+1, 255)`, read the
four corner pixels `tile[y0][x0]`, `tile[y0][x1]`, `tile[y1][x0]`,
`tile[y1][x1]` with Python list indexing, interpolate channel-wise with the
fractional offsets `fx = px - x0`, `fy = py - y0`, and truncate each channel
with `.astype(np.uint8)`.  `none` models a raised `IndexError`. -/
def bilinear_sample {K : Type} [LinearOrderedField K] [FloorRing K]
    (tile_data : TileGrid) (px py : K) : Option RGB :=
  let fx : K := px - ((nbr0 px : ℤ) : K)
  let fy : K := py - ((nbr0 py : ℤ) : K)
  match pyIdx tile_data (nbr0 py), pyIdx tile_data (nbr1 py) with
  | some row0, some row1 =>
    match pyIdx row0 (nbr0 px), pyIdx row0 (nbr1 px),
          pyIdx row1 (nbr0 px), pyIdx row1 (nbr1 px) with
    | some c00, some c10, some c01, some c11 =>
      some ⟨astypeUint8 (interp c00.r c10.r c01.r c11.r fx fy),
            astypeUint8 (interp c00.g c10.g c01.g c11.g fx fy),
            astypeUint8 (interp c00.b c10.b c01.b c11.b fx fy)⟩
    | _, _, _, _ => none
  | _, _ => none

/-- Modelled from the spec: the spec's reading of the resampler (§4.3) with
"round to nearest integer in [0,255] per channel" in place of the source's
truncating `.astype(np.uint8)` cast.  Identical to `bilinear_sample`
otherwise; used only to compare the spec's rounding sentence with the code. -/
def bilinearSampleRounded {K : Type} [LinearOrderedField K] [FloorRing K]
    (tile_data : TileGrid) (px py : K) : Option RGB :=
  let fx : K := px - ((nbr0 px : ℤ) : K)
  let fy : K := py - ((nbr0 py : ℤ) : K)
  match pyIdx tile_data (nbr0 py), pyIdx tile_data (nbr1 py) with
  | some row0, some row1 =>
    match pyIdx row0 (nbr0 px), pyIdx row0 (nbr1 px),
          pyIdx row1 (nbr0 px), pyIdx row1 (nbr1 px) with
    | some c00, some c10, some c01, some c11 =>
      some ⟨(round (interp c00.r c10.r c01.r c11.r fx fy)).toNat,
            (round (interp c00.g c10.g c01.g c11.g fx fy)).toNat,
            (round (interp c00.b c10.b c01.b c11.b fx fy)).toNat⟩
    | _, _, _, _ => none
  | _, _ => none

/-- A tile key `(x, y, z)` as used by `cache_path`, `load_or_fetch_tile` and
the per-request `tile_cache` dictionary in `get_bbox`. -/
structure TileKey where
  x : ℤ
  y : ℤ
  z : ℤ
deriving DecidableEq, Repr

/-- Error kinds surfaced by the service (spec §7).  The embedded code paths
produce `fetch` (a failed provider request propagating out of
`load_or_fetch_tile`) and `indexError` (an `IndexError` escaping
`bilinear_sample`); `invalidParameters` exists as a kind but is produced by
no embedded code path. -/
inductive Err where
  | invalidParameters : Err
  | fetch : Err
  | indexError : Err
deriving DecidableEq, Repr

/-- The external tile provider (`fetch_tile_as_json`): an oracle returning a
decoded tile grid for a key, or failing. -/
abbrev Provider : Type := TileKey → Except Err TileGrid

/-- Association-list lookup keyed by `TileKey`, modelling both the on-disk
tile cache (`os.path.exists` + `json.load`) and the per-request `tile_cache`
dictionary. -/
def lookupKey {α : Type} : List (TileKey × α) → TileKey → Option α
  | [], _ => none
  | (k2, v) :: rest, k => if k2 = k then some v else lookupKey rest k

/-- The durable on-disk cache contents: one stored grid per tile key. -/
abbrev DiskStore : Type := List (TileKey × TileGrid)

/-- Function `load_or_fetch_tile` from `src/app.py`: if the cache holds the key,
return the cached grid (no fetch); otherwise fetch from the provider,
persist the result, and return it.  The boolean records whether an external
fetch was performed. -/
def load_or_fetch_tile (provider : Provider) (store : DiskStore)
    (k : TileKey) : Except Err (TileGrid × DiskStore × Bool) :=
  match lookupKey store k with
  | some g => .ok (g, store, false)
  | none =>
    match provider k with
    | .error e => .error e
    | .ok g => .ok (g, (k, g) :: store, true)

/-- The `/tile` endpoint body (`get_tile` in `src/app.py`) after parameter
parsing: load or fetch the requested tile and return its grid verbatim. -/
def get_tile (provider : Provider) (store : DiskStore) (x y z : ℤ) :
    Except Err (TileGrid × DiskStore) :=
  match load_or_fetch_tile provider store ⟨x, y, z⟩ with
  | .error e => .error e
  | .ok (g, store2, _) => .ok (g, store2)

/-- Degrees to radians, `math.radians(lat)`. -/
noncomputable def latRad (lat : ℝ) : ℝ := lat * Real.pi / 180

/-- Modelled from the spec: the normalised Web-Mercator x coordinate of a
longitude, `x = lng / 360 + 0.5` (spec §4.1 `tileForPoint`; the `mercantile`
dependency implementing it is not vendored under `src/`). -/
noncomputable def xNorm (lng : ℝ) : ℝ := lng / 360 + 1 / 2

/-- Modelled from the spec: the normalised Web-Mercator y coordinate of a
latitude, `y = 0.5 - 0.25 * log((1 + sin lat)/(1 - sin lat)) / pi` with the
latitude in radians (spec §4.1 `tileForPoint`; the `mercantile` dependency
implementing it is not vendored under `src/`). -/
noncomputable def yNorm (lat : ℝ) : ℝ :=
  1 / 2 - Real.log ((1 + Real.sin (latRad lat)) / (1 - Real.sin (latRad lat))) / (4 * Real.pi)

/-- Modelled from the spec: `tileForPoint` (§4.1), the standard Web-Mercator
point-to-tile map used as `mercantile.tile(lon, lat, zoom)` in `get_bbox`.
Coordinates at or beyond the projection's valid range clamp to the first or
last tile; interior coordinates floor into the `2^zoom` grid, so a tile owns
its west and north edges (the spec's half-open tie-break).  Float arithmetic
is idealised as exact real arithmetic. -/
noncomputable def mercTile (lng lat : ℝ) (zoom : ℤ) : TileKey :=
  let z2 : ℝ := 2 ^ zoom
  let x : ℝ := xNorm lng
  let y : ℝ := yNorm lat
  let xt : ℤ := if x ≤ 0 then 0 else if 1 ≤ x then ⌊z2 - 1⌋ else ⌊x * z2⌋
  let yt : ℤ := if y ≤ 0 then 0 else if 1 ≤ y then ⌊z2 - 1⌋ else ⌊y * z2⌋
  ⟨xt, yt, zoom⟩

/-- Geographic extent of a tile (spec's `TileBounds`). -/
structure TileBounds where
  west : ℝ
  south : ℝ
  east : ℝ
  north : ℝ

/-- Modelled from the spec: the latitude of a normalised Web-Mercator y
coordinate, `degrees(atan(sinh(pi * (1 - 2 * y))))` (the inverse projection
used by `boundsForTile`, §4.1). -/
noncomputable def latOfY (y : ℝ) : ℝ :=
  180 / Real.pi * Real.arctan (Real.sinh (Real.pi * (1 - 2 * y)))

/-- Modelled from the spec: `boundsForTile` (§4.1), the tile-to-bounds map
used as `mercantile.bounds(tile)` in `get_bbox`: the tile spans longitudes
`[x/2^z * 360 - 180, (x+1)/2^z * 360 - 180]` and the latitudes of the
corresponding inverse-projected y edges. -/
noncomputable def mercBounds (k : TileKey) : TileBounds :=
  let z2 : ℝ := 2 ^ k.z
  ⟨(k.x : ℝ) / z2 * 360 - 180, latOfY (((k.y : ℝ) + 1) / z2),
   ((k.x : ℝ) + 1) / z2 * 360 - 180, latOfY ((k.y : ℝ) / z2)⟩

/-- Longitude of the centroid of a tile bounds box. -/
noncomputable def centroidLng (b : TileBounds) : ℝ := (b.west + b.east) / 2

/-- Latitude of the centroid of a tile bounds box. -/
noncomputable def centroidLat (b : TileBounds) : ℝ := (b.south + b.north) / 2

/-- The `j`-th of `n` evenly spaced samples from `a` to `b`, as computed by
`np.linspace(a, b, n)`: `a + j * (b - a) / (n - 1)` (for `n = 1` the single
sample is `a`; the `0/0 = 0` convention of Lean division gives exactly
that). -/
noncomputable def linVal (a b : ℝ) (n j : ℕ) : ℝ :=
  a + (j : ℝ) * (b - a) / ((n - 1 : ℕ) : ℝ)

/-- Sample list of `np.linspace(a, b, n)`. -/
noncomputable def linspace (a b : ℝ) (n : ℕ) : List ℝ :=
  (List.range n).map (linVal a b n)

/-- The per-request state threaded through the `get_bbox` pixel loops: the
`tile_cache` request memo, the durable on-disk store, plus two logs: every
key passed to `load_or_fetch_tile` (`loads`) and every key that caused an
external provider fetch (`fetches`). -/
structure StitchState where
  memo : List (TileKey × TileGrid)
  store : DiskStore
  loads : List TileKey
  fetches : List TileKey

/-- One iteration of the inner pixel loop of `get_bbox`: locate the tile
containing the sample point, obtain its grid through the request memo and
`load_or_fetch_tile`, compute the fractional in-tile coordinates
`fx = (lon - west)/(east - west)`, `fy = (north - lat)/(north - south)`,
and bilinearly sample at `(fx * 255, fy * 255)`. -/
noncomputable def samplePoint (provider : Provider) (zoom : ℤ) (lon lat : ℝ)
    (st : StitchState) : Except Err (RGB × StitchState) :=
  let k := mercTile lon lat zoom
  match (match lookupKey st.memo k with
         | some g => Except.ok (g, st)
         | none =>
           match load_or_fetch_tile provider st.store k with
           | .error e => .error e
           | .ok (g, store2, fetched) =>
             .ok (g, ⟨(k, g) :: st.memo, store2, k :: st.loads,
                      if fetched then k :: st.fetches else st.fetches⟩)) with
  | .error e => .error e
  | .ok (g, st1) =>
    let bo := mercBounds k
    let fx := (lon - bo.west) / (bo.east - bo.west)
    let fy := (bo.north - lat) / (bo.north - bo.south)
    match bilinear_sample g (fx * 255) (fy * 255) with
    | some c => .ok (c, st1)
    | none => .error .indexError

/-- The inner (`for j, lon in enumerate(lons)`) loop of `get_bbox`,
producing one raster row. -/
noncomputable def runRow (provider : Provider) (zoom : ℤ) (lat : ℝ) :
    List ℝ → StitchState → Except Err (List RGB × StitchState)
  | [], st => .ok ([], st)
  | lon :: rest, st =>
    match samplePoint provider zoom lon lat st with
    | .error e => .error e
    | .ok (c, st1) =>
      match runRow provider zoom lat rest st1 with
      | .error e => .error e
      | .ok (cs, st2) => .ok (c :: cs, st2)

/-- The outer (`for i, lat in enumerate(lats)`) loop of `get_bbox`,
producing the raster rows top to bottom. -/
noncomputable def runRows (provider : Provider) (zoom : ℤ) (lons : List ℝ) :
    List ℝ → StitchState → Except Err (Texture × StitchState)
  | [], st => .ok ([], st)
  | lat :: rest, st =>
    match runRow provider zoom lat lons st with
    | .error e => .error e
    | .ok (row, st1) =>
      match runRows provider zoom lons rest st1 with
      | .error e => .error e
      | .ok (rows, st2) => .ok (row :: rows, st2)

/-- The `/bbox` endpoint body (`get_bbox` in `src/app.py`) after parameter
parsing: build the longitude samples `np.linspace(min_lon, max_lon, W)` and
latitude samples `np.linspace(max_lat, min_lat, H)` (top to bottom), then
fill the raster pixel by pixel.  Request parameters are Python floats,
i.e. rationals; the request starts with an empty `tile_cache` memo and the
given durable store. -/
noncomputable def stitch (provider : Provider) (store : DiskStore)
    (min_lon min_lat max_lon max_lat : ℚ) (W H : ℕ) (zoom : ℤ) :
    Except Err (Texture × StitchState) :=
  runRows provider zoom (linspace (min_lon : ℝ) (max_lon : ℝ) W)
    (linspace (max_lat : ℝ) (min_lat : ℝ) H) ⟨[], store, [], []⟩

/-- The grid separating truncation from rounding: pixel (0,0) is black,
pixel (0,1) is RGB(1,1,1), everything else black; 256 × 256. -/
def cornerGrid : TileGrid :=
  (⟨0, 0, 0⟩ :: ⟨1, 1, 1⟩ :: List.replicate 254 ⟨0, 0, 0⟩)
    :: List.replicate 255 (List.replicate 256 ⟨0, 0, 0⟩)

/-- The pixel value determined purely by a tile assignment `T`, the zoom and
a sample point — the body of the `get_bbox` pixel loop with the cache
replaced by `T`. -/
noncomputable def pixelPure (T : TileKey → TileGrid) (zoom : ℤ)
    (lon lat : ℝ) : Option RGB :=
  let k := mercTile lon lat zoom
  let bo := mercBounds k
  bilinear_sample (T k) ((lon - bo.west) / (bo.east - bo.west) * 255)
    ((bo.north - lat) / (bo.north - bo.south) * 255)

/-- Pure reference for one raster row. -/
noncomputable def rowPure (T : TileKey → TileGrid) (zoom : ℤ) (lat : ℝ) :
    List ℝ → Option (List RGB)
  | [] => some []
  | lon :: rest =>
    match pixelPure T zoom lon lat, rowPure T zoom lat rest with
    | some c, some cs => some (c :: cs)
    | _, _ => none

/-- Pure reference for the whole raster. -/
noncomputable def rowsPure (T : TileKey → TileGrid) (zoom : ℤ) (lons : List ℝ) :
    List ℝ → Option Texture
  | [] => some []
  | lat :: rest =>
    match rowPure T zoom lat lons, rowsPure T zoom lons rest with
    | some row, some rows => some (row :: rows)
    | _, _ => none

/-- Every grid recorded in an association list agrees with the pure tile
assignment `T`. -/
def subT (T : TileKey → TileGrid) (l : List (TileKey × TileGrid)) : Prop :=
  ∀ k g, lookupKey l k = some g → g = T k

/-- Request-state invariant tying both cache tiers to the pure tile
assignment `T`: memo and store entries agree with `T`, and every memoised
key is also persisted in the store. -/
def goodState (T : TileKey → TileGrid) (st : StitchState) : Prop :=
  subT T st.memo ∧ subT T st.store ∧
    ∀ k, (lookupKey st.memo k).isSome = true → (lookupKey st.store k).isSome = true

/-- Per-request load-log invariant: the keys passed to `load_or_fetch_tile`
so far are exactly the memoised keys, without duplicates. -/
def loadsInv (st : StitchState) : Prop :=
  st.loads.Nodup ∧ ∀ k, k ∈ st.loads ↔ (lookupKey st.memo k).isSome = true

/-- Boolean success test for `Except`. -/
def isOkB {ε α : Type} : Except ε α → Bool
  | .ok _ => true
  | .error _ => false

/-- The constant test tile used by the concrete stitch evaluation. -/
def gConst : TileGrid := List.replicate 256 (List.replicate 256 ⟨5, 6, 7⟩)

/-- Fractional in-tile x coordinate, scaled by 255, of a sample point — the
expression `(lon - west) / (east - west) * 255` computed in the `get_bbox`
pixel loop for the tile containing the point. -/
noncomputable def pxOf (lon lat : ℝ) (zoom : ℤ) : ℝ :=
  (lon - (mercBounds (mercTile lon lat zoom)).west) /
    ((mercBounds (mercTile lon lat zoom)).east -
      (mercBounds (mercTile lon lat zoom)).west) * 255

/-- Fractional in-tile y coordinate, scaled by 255, of a sample point — the
expression `(north - lat) / (north - south) * 255` computed in the
`get_bbox` pixel loop for the tile containing the point. -/
noncomputable def pyOf (lon lat : ℝ) (zoom : ℤ) : ℝ :=
  ((mercBounds (mercTile lon lat zoom)).north - lat) /
    ((mercBounds (mercTile lon lat zoom)).north -
      (mercBounds (mercTile lon lat zoom)).south) * 255

/-- A mixed provider for the mid-stitch failure scenario: it serves the
constant tile for every key except `(3, 2, 2)`, on which the fetch fails. -/
def provMixed : Provider := fun k =>
  if k = ⟨3, 2, 2⟩ then .error .fetch else .ok gConst

theorem getq_replicate {α : Type} (a : α) :
    ∀ (n i : ℕ), i < n → (List.replicate n a).get? i = some a
  | _ + 1, 0, _ => rfl
  | n + 1, i + 1, h => by
    have ih := getq_replicate a n i (by omega)
    simpa [List.replicate_succ] using ih

theorem pyIdx_nonneg {α : Type} (l : List α) (i : ℤ) (h : 0 ≤ i) :
    pyIdx l i = l.get? i.toNat := by
  unfold pyIdx
  rw [if_pos h]

theorem pyIdx_some {α : Type} {l : List α} {i : ℤ} (h0 : 0 ≤ i)
    (h1 : i < (l.length : ℤ)) : ∃ a, pyIdx l i = some a := by
  rw [pyIdx_nonneg l i h0]
  have hlt : i.toNat < l.length := by omega
  exact ⟨l.get ⟨i.toNat, hlt⟩, List.get?_eq_get hlt⟩

theorem nbr0_nonneg {K : Type} [LinearOrderedField K] [FloorRing K] {p : K}
    (h : 0 ≤ p) : 0 ≤ nbr0 p :=
  Int.le_floor.mpr (by exact_mod_cast h)

theorem nbr0_le_255 {K : Type} [LinearOrderedField K] [FloorRing K] {p : K}
    (h : p ≤ 255) : nbr0 p ≤ 255 := by
  unfold nbr0
  calc ⌊p⌋ ≤ ⌊((255 : ℤ) : K)⌋ := Int.floor_le_floor (by push_cast; exact h)
  _ = 255 := Int.floor_intCast 255

theorem nbr1_nonneg {K : Type} [LinearOrderedField K] [FloorRing K] {p : K}
    (h : 0 ≤ p) : 0 ≤ nbr1 p := by
  unfold nbr1
  have h0 := nbr0_nonneg h
  unfold nbr0 at h0
  exact le_min (by omega) (by norm_num)

theorem nbr1_le_255 {K : Type} [LinearOrderedField K] [FloorRing K] (p : K) :
    nbr1 p ≤ 255 :=
  min_le_right _ _

/-- The four corner reads of `bilinear_sample` succeed on a 256 × 256 grid
whenever the neighbour indices are within `[0, 255]`, and the sampled value
is the truncated channel-wise interpolation of the four corners. -/
theorem bilinear_sample_reads {K : Type} [LinearOrderedField K] [FloorRing K]
    (tile : TileGrid) (hlen : tile.length = 256)
    (hrows : ∀ row ∈ tile, row.length = 256) (px py : K)
    (hx0 : 0 ≤ nbr0 px) (hx0b : nbr0 px ≤ 255)
    (hx1 : 0 ≤ nbr1 px) (hx1b : nbr1 px ≤ 255)
    (hy0 : 0 ≤ nbr0 py) (hy0b : nbr0 py ≤ 255)
    (hy1 : 0 ≤ nbr1 py) (hy1b : nbr1 py ≤ 255) :
    ∃ row0 row1 c00 c10 c01 c11,
      pyIdx tile (nbr0 py) = some row0 ∧ pyIdx tile (nbr1 py) = some row1 ∧
      pyIdx row0 (nbr0 px) = some c00 ∧ pyIdx row0 (nbr1 px) = some c10 ∧
      pyIdx row1 (nbr0 px) = some c01 ∧ pyIdx row1 (nbr1 px) = some c11 ∧
      bilinear_sample tile px py = some
        ⟨astypeUint8 (interp c00.r c10.r c01.r c11.r
            (px - ((nbr0 px : ℤ) : K)) (py - ((nbr0 py : ℤ) : K))),
         astypeUint8 (interp c00.g c10.g c01.g c11.g
            (px - ((nbr0 px : ℤ) : K)) (py - ((nbr0 py : ℤ) : K))),
         astypeUint8 (interp c00.b c10.b c01.b c11.b
            (px - ((nbr0 px : ℤ) : K)) (py - ((nbr0 py : ℤ) : K)))⟩ := by
  obtain ⟨row0, hr0⟩ := pyIdx_some (l := tile) hy0 (by rw [hlen]; omega)
  obtain ⟨row1, hr1⟩ := pyIdx_some (l := tile) hy1 (by rw [hlen]; omega)
  have hrow0len : row0.length = 256 := by
    refine hrows row0 ?_
    rw [pyIdx_nonneg tile _ hy0] at hr0
    exact List.get?_mem hr0
  have hrow1len : row1.length = 256 := by
    refine hrows row1 ?_
    rw [pyIdx_nonneg tile _ hy1] at hr1
    exact List.get?_mem hr1
  obtain ⟨c00, hc00⟩ := pyIdx_some (l := row0) hx0 (by rw [hrow0len]; omega)
  obtain ⟨c10, hc10⟩ := pyIdx_some (l := row0) hx1 (by rw [hrow0len]; omega)
  obtain ⟨c01, hc01⟩ := pyIdx_some (l := row1) hx0 (by rw [hrow1len]; omega)
  obtain ⟨c11, hc11⟩ := pyIdx_some (l := row1) hx1 (by rw [hrow1len]; omega)
  refine ⟨row0, row1, c00, c10, c01, c11, hr0, hr1, hc00, hc10, hc01, hc11, ?_⟩
  simp only [bilinear_sample, hr0, hr1, hc00, hc10, hc01, hc11]

theorem interp_zero_zero {K : Type} [LinearOrderedField K] (a b c d : ℕ) :
    interp (K := K) a b c d 0 0 = (a : K) := by
  unfold interp
  ring

theorem astypeUint8_natCast {K : Type} [LinearOrderedField K] [FloorRing K]
    (a : ℕ) : astypeUint8 ((a : ℕ) : K) = a := by
  unfold astypeUint8
  rw [Int.floor_natCast]
  exact Int.toNat_natCast a

/-- C2: for every 256 × 256 tile grid and sampling coordinates `px`, `py` in
`[0, 255]`, `bilinear_sample` reads only row and column indices in
`[0, 255]` — the high neighbours `x1`, `y1` are clamped to 255, so no read
wraps or errors — and at `(255, 255)` it returns exactly the corner pixel
`grid[255][255]`. -/
theorem claim_C2_interpolation_boundary (tile : TileGrid)
    (hlen : tile.length = 256) (hrows : ∀ row ∈ tile, row.length = 256)
    (px py : ℚ) (hpx0 : 0 ≤ px) (hpx1 : px ≤ 255)
    (hpy0 : 0 ≤ py) (hpy1 : py ≤ 255) :
    (0 ≤ nbr0 px ∧ nbr0 px ≤ 255) ∧ (0 ≤ nbr1 px ∧ nbr1 px ≤ 255) ∧
    (0 ≤ nbr0 py ∧ nbr0 py ≤ 255) ∧ (0 ≤ nbr1 py ∧ nbr1 py ≤ 255) ∧
    (bilinear_sample tile px py).isSome = true ∧
    bilinear_sample tile (255 : ℚ) (255 : ℚ) =
      (tile.get? 255).bind (fun row => row.get? 255) := by
  have hx0 := nbr0_nonneg hpx0
  have hx0b := nbr0_le_255 hpx1
  have hx1 := nbr1_nonneg hpx0
  have hx1b := nbr1_le_255 px
  have hy0 := nbr0_nonneg hpy0
  have hy0b := nbr0_le_255 hpy1
  have hy1 := nbr1_nonneg hpy0
  have hy1b := nbr1_le_255 py
  refine ⟨⟨hx0, hx0b⟩, ⟨hx1, hx1b⟩, ⟨hy0, hy0b⟩, ⟨hy1, hy1b⟩, ?_, ?_⟩
  · obtain ⟨r0, r1, a, b2, c, d, h1, h2, h3, h4, h5, h6, heq⟩ :=
      bilinear_sample_reads tile hlen hrows px py hx0 hx0b hx1 hx1b hy0 hy0b hy1 hy1b
    rw [heq]
    rfl
  · have e0 : nbr0 (255 : ℚ) = 255 := by
      unfold nbr0
      rw [show (255 : ℚ) = ((255 : ℤ) : ℚ) by norm_num, Int.floor_intCast]
    have e1 : nbr1 (255 : ℚ) = 255 := by
      unfold nbr1
      rw [show (255 : ℚ) = ((255 : ℤ) : ℚ) by norm_num, Int.floor_intCast]
      decide
    obtain ⟨r0, r1, a, b2, c, d, h1, h2, h3, h4, h5, h6, heq⟩ :=
      bilinear_sample_reads tile hlen hrows (255 : ℚ) (255 : ℚ)
        (by rw [e0]; decide) (by rw [e0]) (by rw [e1]; decide) (by rw [e1])
        (by rw [e0]; decide) (by rw [e0]) (by rw [e1]; decide) (by rw [e1])
    simp only [e0, e1] at h1 h2 h3 h4 h5 h6 heq
    rw [h1] at h2
    obtain rfl : r0 = r1 := Option.some.inj h2
    rw [h3] at h4 h5 h6
    obtain rfl : a = b2 := Option.some.inj h4
    obtain rfl : a = c := Option.some.inj h5
    obtain rfl : a = d := Option.some.inj h6
    have hfrac : (255 : ℚ) - ((255 : ℤ) : ℚ) = 0 := by norm_num
    rw [hfrac, interp_zero_zero, interp_zero_zero, interp_zero_zero,
      astypeUint8_natCast, astypeUint8_natCast, astypeUint8_natCast] at heq
    have hrow : tile.get? 255 = some r0 := by
      have h1c := h1
      rw [pyIdx_nonneg tile 255 (by norm_num)] at h1c
      simpa using h1c
    have hcell : r0.get? 255 = some a := by
      have h3c := h3
      rw [pyIdx_nonneg r0 255 (by norm_num)] at h3c
      simpa using h3c
    rw [hrow]
    simp only [Option.some_bind]
    rw [hcell]
    exact heq

/-- Witness for C2: the hypotheses hold and the conclusion is obtained at a
concrete 256 × 256 grid with coordinates (0, 0). -/
theorem claim_C2_interpolation_boundary_witness :
    (List.replicate 256 (List.replicate 256 (⟨1, 2, 3⟩ : RGB))).length = 256 ∧
    (0 : ℚ) ≤ 0 ∧ (0 : ℚ) ≤ 255 ∧
    (bilinear_sample (List.replicate 256 (List.replicate 256 (⟨1, 2, 3⟩ : RGB)))
      (0 : ℚ) (0 : ℚ)).isSome = true ∧
    bilinear_sample (List.replicate 256 (List.replicate 256 (⟨1, 2, 3⟩ : RGB)))
        (255 : ℚ) (255 : ℚ) =
      ((List.replicate 256 (List.replicate 256 (⟨1, 2, 3⟩ : RGB))).get? 255).bind
        (fun row => row.get? 255) := by
  have h := claim_C2_interpolation_boundary
    (List.replicate 256 (List.replicate 256 ⟨1, 2, 3⟩))
    (List.length_replicate 256 _)
    (by
      intro row hr
      rw [List.eq_of_mem_replicate hr]
      exact List.length_replicate 256 _)
    0 0 le_rfl (by norm_num) le_rfl (by norm_num)
  exact ⟨List.length_replicate 256 _, le_rfl, by norm_num,
    h.2.2.2.2.1, h.2.2.2.2.2⟩

/-- C10: `bilinear_sample` clamps only at the far edge, not at zero: for
`px` in `[-1, 0)` and `py` in `[0, 255]` on a 256 × 256 grid no IndexError
is raised, the low x-neighbour index is `floor(px) = -1`, and Python
negative indexing makes index `-1` read column 255, the opposite edge of
the tile, instead of clamping to column 0. -/
theorem claim_C10_negative_index_opposite_edge (tile : TileGrid)
    (hlen : tile.length = 256) (hrows : ∀ row ∈ tile, row.length = 256)
    (px py : ℚ) (hpx0 : -1 ≤ px) (hpx1 : px < 0)
    (hpy0 : 0 ≤ py) (hpy1 : py ≤ 255) :
    nbr0 px = -1 ∧
    (∀ row : List RGB, row.length = 256 → pyIdx row (nbr0 px) = row.get? 255) ∧
    (bilinear_sample tile px py).isSome = true := by
  have hx0 : nbr0 px = -1 := by
    unfold nbr0
    rw [Int.floor_eq_iff]
    constructor
    · push_cast; linarith
    · push_cast; linarith
  have hx1 : nbr1 px = 0 := by
    unfold nbr1 at *
    unfold nbr0 at hx0
    omega
  have hneg : ∀ row : List RGB, row.length = 256 →
      pyIdx row (nbr0 px) = row.get? 255 := by
    intro row hrlen
    rw [hx0]
    unfold pyIdx
    rw [if_neg (by norm_num), if_pos (by rw [hrlen]; norm_num), hrlen]
    rfl
  refine ⟨hx0, hneg, ?_⟩
  have hy0 := nbr0_nonneg hpy0
  have hy0b := nbr0_le_255 hpy1
  have hy1 := nbr1_nonneg hpy0
  have hy1b := nbr1_le_255 py
  obtain ⟨row0, hr0⟩ := pyIdx_some (l := tile) hy0 (by rw [hlen]; omega)
  obtain ⟨row1, hr1⟩ := pyIdx_some (l := tile) hy1 (by rw [hlen]; omega)
  have hrow0len : row0.length = 256 := by
    refine hrows row0 ?_
    rw [pyIdx_nonneg tile _ hy0] at hr0
    exact List.get?_mem hr0
  have hrow1len : row1.length = 256 := by
    refine hrows row1 ?_
    rw [pyIdx_nonneg tile _ hy1] at hr1
    exact List.get?_mem hr1
  obtain ⟨c00, hc00⟩ : ∃ a, row0.get? 255 = some a := by
    have hlt : (255 : ℕ) < row0.length := by omega
    exact ⟨row0.get ⟨255, hlt⟩, List.get?_eq_get hlt⟩
  obtain ⟨c01, hc01⟩ : ∃ a, row1.get? 255 = some a := by
    have hlt : (255 : ℕ) < row1.length := by omega
    exact ⟨row1.get ⟨255, hlt⟩, List.get?_eq_get hlt⟩
  obtain ⟨c10, hc10⟩ := pyIdx_some (l := row0) (i := nbr1 px) (by omega)
    (by rw [hrow0len]; omega)
  obtain ⟨c11, hc11⟩ := pyIdx_some (l := row1) (i := nbr1 px) (by omega)
    (by rw [hrow1len]; omega)
  have h00 : pyIdx row0 (nbr0 px) = some c00 := by rw [hneg row0 hrow0len]; exact hc00
  have h01 : pyIdx row1 (nbr0 px) = some c01 := by rw [hneg row1 hrow1len]; exact hc01
  simp only [bilinear_sample, hr0, hr1, h00, h01, hc10, hc11]
  rfl

/-- Witness for C10 at `px = -1/2`, `py = 0` on a concrete 256 × 256 grid:
the call succeeds and the low x-index resolves to column 255. -/
theorem claim_C10_negative_index_opposite_edge_witness :
    (-1 : ℚ) ≤ -1/2 ∧ (-1/2 : ℚ) < 0 ∧
    nbr0 (-1/2 : ℚ) = -1 ∧
    pyIdx (List.replicate 256 (⟨1, 2, 3⟩ : RGB)) (nbr0 (-1/2 : ℚ)) =
      (List.replicate 256 (⟨1, 2, 3⟩ : RGB)).get? 255 ∧
    (bilinear_sample (List.replicate 256 (List.replicate 256 (⟨1, 2, 3⟩ : RGB)))
      (-1/2 : ℚ) (0 : ℚ)).isSome = true := by
  have h := claim_C10_negative_index_opposite_edge
    (List.replicate 256 (List.replicate 256 ⟨1, 2, 3⟩))
    (List.length_replicate 256 _)
    (by
      intro row hr
      rw [List.eq_of_mem_replicate hr]
      exact List.length_replicate 256 _)
    (-1/2) 0 (by norm_num) (by norm_num) le_rfl (by norm_num)
  exact ⟨by norm_num, by norm_num, h.1,
    h.2.1 (List.replicate 256 ⟨1, 2, 3⟩) (List.length_replicate 256 _), h.2.2⟩

/-- C7 counterexample: on a 256 × 256 grid, at `px = 3/4`, `py = 0` the
interpolated channel value is `3/4`; the source's `.astype(np.uint8)`
truncates it to 0, while the spec's round-to-nearest would give 1, so
`bilinear_sample` does not round to nearest. -/
theorem claim_C7_rounding_counterexample :
    cornerGrid.length = 256 ∧
    bilinear_sample cornerGrid ((3 : ℚ) / 4) 0 = some ⟨0, 0, 0⟩ ∧
    bilinearSampleRounded cornerGrid ((3 : ℚ) / 4) 0 = some ⟨1, 1, 1⟩ ∧
    bilinear_sample cornerGrid ((3 : ℚ) / 4) 0 ≠
      bilinearSampleRounded cornerGrid ((3 : ℚ) / 4) 0 := by
  have hfloor : ⌊(3 : ℚ) / 4⌋ = 0 := by
    rw [Int.floor_eq_zero_iff, Set.mem_Ico]
    constructor <;> norm_num
  have e0 : nbr0 ((3 : ℚ) / 4) = 0 := hfloor
  have e1 : nbr1 ((3 : ℚ) / 4) = 1 := by
    unfold nbr1
    rw [hfloor]
    decide
  have ey0 : nbr0 (0 : ℚ) = 0 := Int.floor_zero
  have ey1 : nbr1 (0 : ℚ) = 1 := by
    unfold nbr1
    rw [Int.floor_zero]
    decide
  have hA : pyIdx cornerGrid 0 =
      some (⟨0, 0, 0⟩ :: ⟨1, 1, 1⟩ :: List.replicate 254 ⟨0, 0, 0⟩) := rfl
  have hB : pyIdx cornerGrid 1 = some (List.replicate 256 ⟨0, 0, 0⟩) := rfl
  have hc00 : pyIdx (⟨0, 0, 0⟩ :: ⟨1, 1, 1⟩ :: List.replicate 254 (⟨0, 0, 0⟩ : RGB)) 0 =
      some ⟨0, 0, 0⟩ := rfl
  have hc10 : pyIdx (⟨0, 0, 0⟩ :: ⟨1, 1, 1⟩ :: List.replicate 254 (⟨0, 0, 0⟩ : RGB)) 1 =
      some ⟨1, 1, 1⟩ := rfl
  have hc01 : pyIdx (List.replicate 256 (⟨0, 0, 0⟩ : RGB)) 0 = some ⟨0, 0, 0⟩ := rfl
  have hc11 : pyIdx (List.replicate 256 (⟨0, 0, 0⟩ : RGB)) 1 = some ⟨0, 0, 0⟩ := rfl
  have hinterp : interp (K := ℚ) 0 1 0 0 ((3 : ℚ) / 4 - ((0 : ℤ) : ℚ))
      ((0 : ℚ) - ((0 : ℤ) : ℚ)) = 3 / 4 := by
    unfold interp
    push_cast
    ring
  have htrunc : astypeUint8 ((3 : ℚ) / 4) = 0 := by
    unfold astypeUint8
    rw [hfloor]
    rfl
  have hround : (round ((3 : ℚ) / 4)).toNat = 1 := by
    rw [round_eq]
    have : ⌊(3 : ℚ) / 4 + 1 / 2⌋ = 1 := by
      rw [Int.floor_eq_iff]
      constructor <;> norm_num
    rw [this]
    rfl
  have hsrc : bilinear_sample cornerGrid ((3 : ℚ) / 4) 0 = some ⟨0, 0, 0⟩ := by
    simp only [bilinear_sample, e0, e1, ey0, ey1, hA, hB, hc00, hc10, hc01, hc11]
    rw [hinterp, htrunc]
  have hspec : bilinearSampleRounded cornerGrid ((3 : ℚ) / 4) 0 = some ⟨1, 1, 1⟩ := by
    simp only [bilinearSampleRounded, e0, e1, ey0, ey1, hA, hB, hc00, hc10, hc01, hc11]
    rw [hinterp, hround]
  have hlen : cornerGrid.length = 256 := by
    rw [cornerGrid, List.length_cons, List.length_replicate]
  refine ⟨hlen, hsrc, hspec, ?_⟩
  rw [hsrc, hspec]
  intro h
  have := Option.some.inj h
  simp at this

theorem interp_bounds {K : Type} [LinearOrderedField K] {a b c d : ℕ}
    (ha : a ≤ 255) (hb : b ≤ 255) (hc : c ≤ 255) (hd : d ≤ 255)
    {fx fy : K} (hfx0 : 0 ≤ fx) (hfx1 : fx ≤ 1) (hfy0 : 0 ≤ fy) (hfy1 : fy ≤ 1) :
    0 ≤ interp a b c d fx fy ∧ interp a b c d fx fy ≤ 255 := by
  have ha2 : (0 : K) ≤ a ∧ (a : K) ≤ 255 := ⟨by positivity, by exact_mod_cast ha⟩
  have hb2 : (0 : K) ≤ b ∧ (b : K) ≤ 255 := ⟨by positivity, by exact_mod_cast hb⟩
  have hc2 : (0 : K) ≤ c ∧ (c : K) ≤ 255 := ⟨by positivity, by exact_mod_cast hc⟩
  have hd2 : (0 : K) ≤ d ∧ (d : K) ≤ 255 := ⟨by positivity, by exact_mod_cast hd⟩
  unfold interp
  constructor
  · have h1 : 0 ≤ (a : K) * (1 - fx) := mul_nonneg ha2.1 (by linarith)
    have h2 : 0 ≤ (b : K) * fx := mul_nonneg hb2.1 hfx0
    have h3 : 0 ≤ (c : K) * (1 - fx) := mul_nonneg hc2.1 (by linarith)
    have h4 : 0 ≤ (d : K) * fx := mul_nonneg hd2.1 hfx0
    have h5 : 0 ≤ ((a : K) * (1 - fx) + (b : K) * fx) * (1 - fy) :=
      mul_nonneg (by linarith) (by linarith)
    have h6 : 0 ≤ ((c : K) * (1 - fx) + (d : K) * fx) * fy :=
      mul_nonneg (by linarith) hfy0
    linarith
  · have h1 : (a : K) * (1 - fx) ≤ 255 * (1 - fx) :=
      mul_le_mul_of_nonneg_right ha2.2 (by linarith)
    have h2 : (b : K) * fx ≤ 255 * fx := mul_le_mul_of_nonneg_right hb2.2 hfx0
    have h3 : (c : K) * (1 - fx) ≤ 255 * (1 - fx) :=
      mul_le_mul_of_nonneg_right hc2.2 (by linarith)
    have h4 : (d : K) * fx ≤ 255 * fx := mul_le_mul_of_nonneg_right hd2.2 hfx0
    have h5 : ((a : K) * (1 - fx) + (b : K) * fx) * (1 - fy) ≤ 255 * (1 - fy) :=
      mul_le_mul_of_nonneg_right (by linarith) (by linarith)
    have h6 : ((c : K) * (1 - fx) + (d : K) * fx) * fy ≤ 255 * fy :=
      mul_le_mul_of_nonneg_right (by linarith) hfy0
    linarith

/-- C7 amended: `bilinear_sample` interpolates channel-wise with fractional
offsets `fx = px - floor(px)`, `fy = py - floor(py)` and standard bilinear
weights, then truncates (floors) each nonnegative channel value — rather
than rounding it to nearest — yielding an integer in `[0, 255]` whenever the
corner channels are 8-bit. -/
theorem claim_C7_truncated_interpolation (tile : TileGrid) (px py : ℚ)
    (hpx0 : 0 ≤ px) (hpy0 : 0 ≤ py)
    (row0 row1 : List RGB) (c00 c10 c01 c11 : RGB)
    (h1 : pyIdx tile (nbr0 py) = some row0)
    (h2 : pyIdx tile (nbr1 py) = some row1)
    (h3 : pyIdx row0 (nbr0 px) = some c00)
    (h4 : pyIdx row0 (nbr1 px) = some c10)
    (h5 : pyIdx row1 (nbr0 px) = some c01)
    (h6 : pyIdx row1 (nbr1 px) = some c11)
    (hbound : ∀ e ∈ [c00, c10, c01, c11], e.r ≤ 255 ∧ e.g ≤ 255 ∧ e.b ≤ 255) :
    bilinear_sample tile px py = some
      ⟨(⌊interp c00.r c10.r c01.r c11.r (px - ((⌊px⌋ : ℤ) : ℚ))
          (py - ((⌊py⌋ : ℤ) : ℚ))⌋).toNat,
       (⌊interp c00.g c10.g c01.g c11.g (px - ((⌊px⌋ : ℤ) : ℚ))
          (py - ((⌊py⌋ : ℤ) : ℚ))⌋).toNat,
       (⌊interp c00.b c10.b c01.b c11.b (px - ((⌊px⌋ : ℤ) : ℚ))
          (py - ((⌊py⌋ : ℤ) : ℚ))⌋).toNat⟩ ∧
    (⌊interp c00.r c10.r c01.r c11.r (px - ((⌊px⌋ : ℤ) : ℚ))
        (py - ((⌊py⌋ : ℤ) : ℚ))⌋).toNat ≤ 255 ∧
    (⌊interp c00.g c10.g c01.g c11.g (px - ((⌊px⌋ : ℤ) : ℚ))
        (py - ((⌊py⌋ : ℤ) : ℚ))⌋).toNat ≤ 255 ∧
    (⌊interp c00.b c10.b c01.b c11.b (px - ((⌊px⌋ : ℤ) : ℚ))
        (py - ((⌊py⌋ : ℤ) : ℚ))⌋).toNat ≤ 255 := by
  have hfx0 : 0 ≤ px - ((⌊px⌋ : ℤ) : ℚ) := by
    have := Int.floor_le px
    linarith
  have hfx1 : px - ((⌊px⌋ : ℤ) : ℚ) ≤ 1 := by
    have := Int.lt_floor_add_one px
    push_cast at this ⊢
    linarith
  have hfy0 : 0 ≤ py - ((⌊py⌋ : ℤ) : ℚ) := by
    have := Int.floor_le py
    linarith
  have hfy1 : py - ((⌊py⌋ : ℤ) : ℚ) ≤ 1 := by
    have := Int.lt_floor_add_one py
    push_cast at this ⊢
    linarith
  have hb00 := hbound c00 (by simp)
  have hb10 := hbound c10 (by simp)
  have hb01 := hbound c01 (by simp)
  have hb11 := hbound c11 (by simp)
  have key : ∀ a b c d : ℕ, a ≤ 255 → b ≤ 255 → c ≤ 255 → d ≤ 255 →
      (⌊interp (K := ℚ) a b c d (px - ((⌊px⌋ : ℤ) : ℚ))
        (py - ((⌊py⌋ : ℤ) : ℚ))⌋).toNat ≤ 255 := by
    intro a b c d ha hb hc hd
    obtain ⟨-, hub⟩ := interp_bounds (K := ℚ) ha hb hc hd hfx0 hfx1 hfy0 hfy1
    have hle : interp (K := ℚ) a b c d (px - ((⌊px⌋ : ℤ) : ℚ))
        (py - ((⌊py⌋ : ℤ) : ℚ)) ≤ ((255 : ℤ) : ℚ) := by
      push_cast
      linarith
    have hfl := Int.floor_le_floor hle
    rw [Int.floor_intCast] at hfl
    exact Int.toNat_le.mpr (by exact_mod_cast hfl)
  refine ⟨?_, key _ _ _ _ hb00.1 hb10.1 hb01.1 hb11.1,
    key _ _ _ _ hb00.2.1 hb10.2.1 hb01.2.1 hb11.2.1,
    key _ _ _ _ hb00.2.2 hb10.2.2 hb01.2.2 hb11.2.2⟩
  simp only [bilinear_sample, h1, h2, h3, h4, h5, h6]
  rfl

/-- Witness for the amended C7 at a constant 256 × 256 grid with channel
value 9, coordinates (0, 0): reads resolve, the sampled pixel is the
truncated interpolation, and each channel is within 255. -/
theorem claim_C7_truncated_interpolation_witness :
    bilinear_sample (List.replicate 256 (List.replicate 256 (⟨9, 9, 9⟩ : RGB)))
        (0 : ℚ) (0 : ℚ) = some
      ⟨(⌊interp 9 9 9 9 ((0 : ℚ) - ((⌊(0 : ℚ)⌋ : ℤ) : ℚ))
          ((0 : ℚ) - ((⌊(0 : ℚ)⌋ : ℤ) : ℚ))⌋).toNat,
       (⌊interp 9 9 9 9 ((0 : ℚ) - ((⌊(0 : ℚ)⌋ : ℤ) : ℚ))
          ((0 : ℚ) - ((⌊(0 : ℚ)⌋ : ℤ) : ℚ))⌋).toNat,
       (⌊interp 9 9 9 9 ((0 : ℚ) - ((⌊(0 : ℚ)⌋ : ℤ) : ℚ))
          ((0 : ℚ) - ((⌊(0 : ℚ)⌋ : ℤ) : ℚ))⌋).toNat⟩ ∧
    (⌊interp (K := ℚ) 9 9 9 9 ((0 : ℚ) - ((⌊(0 : ℚ)⌋ : ℤ) : ℚ))
        ((0 : ℚ) - ((⌊(0 : ℚ)⌋ : ℤ) : ℚ))⌋).toNat ≤ 255 := by
  have e0 : nbr0 (0 : ℚ) = 0 := Int.floor_zero
  have e1 : nbr1 (0 : ℚ) = 1 := by
    unfold nbr1
    rw [Int.floor_zero]
    decide
  have hrow : pyIdx (List.replicate 256 (List.replicate 256 (⟨9, 9, 9⟩ : RGB)))
      (nbr0 (0 : ℚ)) = some (List.replicate 256 ⟨9, 9, 9⟩) := by
    rw [e0]; rfl
  have hrow1 : pyIdx (List.replicate 256 (List.replicate 256 (⟨9, 9, 9⟩ : RGB)))
      (nbr1 (0 : ℚ)) = some (List.replicate 256 ⟨9, 9, 9⟩) := by
    rw [e1]; rfl
  have hcell : pyIdx (List.replicate 256 (⟨9, 9, 9⟩ : RGB)) (nbr0 (0 : ℚ)) =
      some ⟨9, 9, 9⟩ := by
    rw [e0]; rfl
  have hcell1 : pyIdx (List.replicate 256 (⟨9, 9, 9⟩ : RGB)) (nbr1 (0 : ℚ)) =
      some ⟨9, 9, 9⟩ := by
    rw [e1]; rfl
  have h := claim_C7_truncated_interpolation
    (List.replicate 256 (List.replicate 256 ⟨9, 9, 9⟩)) 0 0 le_rfl le_rfl
    (List.replicate 256 ⟨9, 9, 9⟩) (List.replicate 256 ⟨9, 9, 9⟩)
    ⟨9, 9, 9⟩ ⟨9, 9, 9⟩ ⟨9, 9, 9⟩ ⟨9, 9, 9⟩
    hrow hrow1 hcell hcell1 hcell hcell1
    (by intro e he; simp at he; rw [he]; exact ⟨by norm_num, by norm_num, by norm_num⟩)
  exact ⟨h.1, h.2.1⟩

/-- C9: the whole-tile endpoint bypasses the sampling grid and the
resampler entirely: whenever the requested tile is obtainable (from the
durable cache or a successful fetch), `get_tile` returns the raw grid
verbatim, untouched by `bilinear_sample`. -/
theorem claim_C9_whole_tile_verbatim (provider : Provider) (store : DiskStore)
    (x y z : ℤ) (g : TileGrid) (store2 : DiskStore) (fetched : Bool)
    (h : load_or_fetch_tile provider store ⟨x, y, z⟩ = .ok (g, store2, fetched)) :
    get_tile provider store x y z = .ok (g, store2) := by
  unfold get_tile
  rw [h]

/-- Witness for C9: a provider serving a constant 256 × 256 grid; the
endpoint returns that grid verbatim. -/
theorem claim_C9_whole_tile_verbatim_witness :
    load_or_fetch_tile (fun _ => .ok (List.replicate 256 (List.replicate 256 ⟨9, 9, 9⟩)))
        [] ⟨1, 2, 3⟩ = .ok (List.replicate 256 (List.replicate 256 ⟨9, 9, 9⟩),
          [(⟨1, 2, 3⟩, List.replicate 256 (List.replicate 256 ⟨9, 9, 9⟩))], true) ∧
    get_tile (fun _ => .ok (List.replicate 256 (List.replicate 256 ⟨9, 9, 9⟩)))
        [] 1 2 3 = .ok (List.replicate 256 (List.replicate 256 ⟨9, 9, 9⟩),
          [(⟨1, 2, 3⟩, List.replicate 256 (List.replicate 256 ⟨9, 9, 9⟩))]) :=
  ⟨rfl, claim_C9_whole_tile_verbatim _ _ 1 2 3 _ _ _ rfl⟩

theorem latOfY_lt_90 (u : ℝ) : latOfY u < 90 := by
  unfold latOfY
  have hpi := Real.pi_pos
  have h := Real.arctan_lt_pi_div_two (Real.sinh (Real.pi * (1 - 2 * u)))
  have h2 : 180 / Real.pi * Real.arctan (Real.sinh (Real.pi * (1 - 2 * u))) <
      180 / Real.pi * (Real.pi / 2) :=
    mul_lt_mul_of_pos_left h (by positivity)
  have h3 : 180 / Real.pi * (Real.pi / 2) = 90 := by
    field_simp
    norm_num
  linarith

theorem neg_90_lt_latOfY (u : ℝ) : -90 < latOfY u := by
  unfold latOfY
  have hpi := Real.pi_pos
  have h := Real.neg_pi_div_two_lt_arctan (Real.sinh (Real.pi * (1 - 2 * u)))
  have h2 : 180 / Real.pi * (-(Real.pi / 2)) <
      180 / Real.pi * Real.arctan (Real.sinh (Real.pi * (1 - 2 * u))) :=
    mul_lt_mul_of_pos_left h (by positivity)
  have h3 : 180 / Real.pi * (-(Real.pi / 2)) = -90 := by
    field_simp
    ring
  linarith

theorem latOfY_strictAnti {u v : ℝ} (h : u < v) : latOfY v < latOfY u := by
  unfold latOfY
  have hpi := Real.pi_pos
  have h1 : Real.pi * (1 - 2 * v) < Real.pi * (1 - 2 * u) :=
    mul_lt_mul_of_pos_left (by linarith) hpi
  have h2 := Real.sinh_lt_sinh.mpr h1
  have h3 := Real.arctan_strictMono h2
  exact mul_lt_mul_of_pos_left h3 (by positivity)

/-- The inverse-projection identity: projecting the latitude of a normalised
Mercator y coordinate recovers that coordinate exactly. -/
theorem yNorm_latOfY (u : ℝ) : yNorm (latOfY u) = u := by
  have hpi := Real.pi_pos
  have hrad : latRad (latOfY u) = Real.arctan (Real.sinh (Real.pi * (1 - 2 * u))) := by
    unfold latRad latOfY
    field_simp
  set s : ℝ := Real.sinh (Real.pi * (1 - 2 * u)) with hs
  set r : ℝ := Real.sqrt (1 + s ^ 2) with hr
  have hr2 : r ^ 2 = 1 + s ^ 2 := Real.sq_sqrt (by positivity)
  have hrpos : 0 < r := Real.sqrt_pos.mpr (by positivity)
  have habs : |s| < r := by
    rw [hr, ← Real.sqrt_sq_eq_abs]
    exact Real.sqrt_lt_sqrt (by positivity) (by linarith)
  have hsltr : s < r := lt_of_le_of_lt (le_abs_self s) habs
  have hnegr : -r < s := by
    have := neg_abs_le s
    linarith
  have hrs_pos : 0 < r - s := by linarith
  have hrs_pos2 : 0 < r + s := by linarith
  have hsin : Real.sin (latRad (latOfY u)) = s / r := by
    rw [hrad, Real.sin_arctan]
  have hplus : 1 + s / r = (r + s) / r := by
    field_simp
  have hminus : 1 - s / r = (r - s) / r := by
    field_simp
  have h1m : (0 : ℝ) < 1 - s / r := by
    rw [hminus]
    positivity
  have hquot : (1 + s / r) / (1 - s / r) = (r + s) / (r - s) := by
    rw [div_eq_div_iff h1m.ne' hrs_pos.ne']
    field_simp
  have hprod : (r - s) * (r + s) = 1 := by
    have : r ^ 2 - s ^ 2 = 1 := by linarith
    nlinarith
  have hlogzero : Real.log (r - s) + Real.log (r + s) = 0 := by
    rw [← Real.log_mul hrs_pos.ne' hrs_pos2.ne', hprod, Real.log_one]
  have harsinh : Real.log (r + s) = Real.pi * (1 - 2 * u) := by
    have : Real.log (r + s) = Real.arsinh s := by
      unfold Real.arsinh
      rw [← hr, add_comm]
    rw [this, hs, Real.arsinh_sinh]
  have hlog : Real.log ((1 + s / r) / (1 - s / r)) = 2 * (Real.pi * (1 - 2 * u)) := by
    rw [hquot, Real.log_div hrs_pos2.ne' hrs_pos.ne']
    linarith
  unfold yNorm
  rw [hsin, hlog]
  field_simp
  ring

/-- The forward projection is strictly antitone on Mercator-valid
latitudes. -/
theorem yNorm_strictAntiOn {u v : ℝ} (hu : -90 < u) (hv : v < 90) (huv : u < v) :
    yNorm v < yNorm u := by
  have hpi := Real.pi_pos
  have hscale : (0 : ℝ) < Real.pi / 180 := by positivity
  have hradlt : latRad u < latRad v := by
    unfold latRad
    nlinarith [mul_pos (by linarith : (0 : ℝ) < v - u) hpi]
  have hradu : -(Real.pi / 2) < latRad u := by
    unfold latRad
    nlinarith [mul_pos (by linarith : (0 : ℝ) < u + 90) hpi]
  have hradv : latRad v < Real.pi / 2 := by
    unfold latRad
    nlinarith [mul_pos (by linarith : (0 : ℝ) < 90 - v) hpi]
  have hsinlt : Real.sin (latRad u) < Real.sin (latRad v) := by
    apply Real.strictMonoOn_sin
    · exact Set.mem_Icc.mpr ⟨by linarith, by linarith⟩
    · exact Set.mem_Icc.mpr ⟨by linarith, by linarith⟩
    · exact hradlt
  have hsinv_lt : Real.sin (latRad v) < 1 := by
    have h1 := Real.strictMonoOn_sin
      (Set.mem_Icc.mpr ⟨by linarith, by linarith⟩)
      (Set.mem_Icc.mpr ⟨by linarith, le_refl (Real.pi / 2)⟩) hradv
    rwa [Real.sin_pi_div_two] at h1
  have hsinu_gt : -1 < Real.sin (latRad u) := by
    have h1 := Real.strictMonoOn_sin
      (Set.mem_Icc.mpr ⟨le_refl (-(Real.pi / 2)), by linarith⟩)
      (Set.mem_Icc.mpr ⟨by linarith, by linarith⟩) hradu
    rwa [Real.sin_neg, Real.sin_pi_div_two] at h1
  set su := Real.sin (latRad u)
  set sv := Real.sin (latRad v)
  have h1u : (0 : ℝ) < 1 + su := by linarith
  have h1v : (0 : ℝ) < 1 + sv := by linarith
  have h2u : (0 : ℝ) < 1 - su := by linarith
  have h2v : (0 : ℝ) < 1 - sv := by linarith
  have hloglt : Real.log ((1 + su) / (1 - su)) < Real.log ((1 + sv) / (1 - sv)) := by
    rw [Real.log_div h1u.ne' h2u.ne', Real.log_div h1v.ne' h2v.ne']
    have ha := Real.log_lt_log h1u (by linarith : 1 + su < 1 + sv)
    have hb := Real.log_lt_log h2v (by linarith : 1 - sv < 1 - su)
    linarith
  unfold yNorm
  have hdiv : Real.log ((1 + su) / (1 - su)) / (4 * Real.pi) <
      Real.log ((1 + sv) / (1 - sv)) / (4 * Real.pi) :=
    (div_lt_div_right (by positivity)).mpr hloglt
  linarith

/-- C8: for every valid TileKey (0 ≤ x, y < 2^zoom) the point-to-tile and
tile-to-bounds maps round-trip exactly: the tile containing the centroid of
a tile's bounds is that tile. -/
theorem claim_C8_roundtrip (x y : ℤ) (z : ℕ)
    (hx0 : 0 ≤ x) (hx1 : x < 2 ^ z) (hy0 : 0 ≤ y) (hy1 : y < 2 ^ z) :
    mercTile (centroidLng (mercBounds ⟨x, y, (z : ℤ)⟩))
      (centroidLat (mercBounds ⟨x, y, (z : ℤ)⟩)) (z : ℤ) = ⟨x, y, (z : ℤ)⟩ := by
  have hZpos : (0 : ℝ) < (2 : ℝ) ^ z := by positivity
  have hxR0 : (0 : ℝ) ≤ (x : ℝ) := by exact_mod_cast hx0
  have hxR1 : (x : ℝ) + 1 ≤ (2 : ℝ) ^ z := by
    have : ((x + 1 : ℤ) : ℝ) ≤ (((2 : ℤ) ^ z : ℤ) : ℝ) := by exact_mod_cast hx1
    push_cast at this
    linarith
  have hyR0 : (0 : ℝ) ≤ (y : ℝ) := by exact_mod_cast hy0
  have hyR1 : (y : ℝ) + 1 ≤ (2 : ℝ) ^ z := by
    have : ((y + 1 : ℤ) : ℝ) ≤ (((2 : ℤ) ^ z : ℤ) : ℝ) := by exact_mod_cast hy1
    push_cast at this
    linarith
  have hlng : centroidLng (mercBounds ⟨x, y, (z : ℤ)⟩) =
      ((x : ℝ) + 1 / 2) / (2 : ℝ) ^ z * 360 - 180 := by
    unfold centroidLng mercBounds
    simp only [zpow_natCast]
    field_simp
    ring
  have hlat : centroidLat (mercBounds ⟨x, y, (z : ℤ)⟩) =
      (latOfY (((y : ℝ) + 1) / (2 : ℝ) ^ z) + latOfY ((y : ℝ) / (2 : ℝ) ^ z)) / 2 := by
    unfold centroidLat mercBounds
    simp only [zpow_natCast]
  have hxn : xNorm (centroidLng (mercBounds ⟨x, y, (z : ℤ)⟩)) =
      ((x : ℝ) + 1 / 2) / (2 : ℝ) ^ z := by
    rw [hlng]
    unfold xNorm
    field_simp
    ring
  have hxn_pos : 0 < ((x : ℝ) + 1 / 2) / (2 : ℝ) ^ z :=
    div_pos (by linarith) hZpos
  have hxn_lt1 : ((x : ℝ) + 1 / 2) / (2 : ℝ) ^ z < 1 := by
    rw [div_lt_one hZpos]
    linarith
  have hhalf : ⌊(1 / 2 : ℝ)⌋ = 0 := by
    rw [Int.floor_eq_zero_iff, Set.mem_Ico]
    constructor <;> norm_num
  have hxfloor : ⌊((x : ℝ) + 1 / 2) / (2 : ℝ) ^ z * (2 : ℝ) ^ z⌋ = x := by
    have hcancel : ((x : ℝ) + 1 / 2) / (2 : ℝ) ^ z * (2 : ℝ) ^ z = (x : ℝ) + 1 / 2 := by
      field_simp
      ring
    rw [hcancel, Int.floor_int_add, hhalf, add_zero]
  have hab : (y : ℝ) / (2 : ℝ) ^ z < ((y : ℝ) + 1) / (2 : ℝ) ^ z :=
    (div_lt_div_right hZpos).mpr (by linarith)
  have hlatlt : latOfY (((y : ℝ) + 1) / (2 : ℝ) ^ z) < latOfY ((y : ℝ) / (2 : ℝ) ^ z) :=
    latOfY_strictAnti hab
  set m : ℝ := (latOfY (((y : ℝ) + 1) / (2 : ℝ) ^ z)
    + latOfY ((y : ℝ) / (2 : ℝ) ^ z)) / 2 with hm
  have hm_lt : m < latOfY ((y : ℝ) / (2 : ℝ) ^ z) := by
    rw [hm]
    linarith
  have hm_gt : latOfY (((y : ℝ) + 1) / (2 : ℝ) ^ z) < m := by
    rw [hm]
    linarith
  have hm_r1 : -90 < m := lt_trans (neg_90_lt_latOfY _) hm_gt
  have hm_r2 : m < 90 := lt_trans hm_lt (latOfY_lt_90 _)
  have hyn_lt : yNorm m < ((y : ℝ) + 1) / (2 : ℝ) ^ z := by
    have h := yNorm_strictAntiOn (neg_90_lt_latOfY (((y : ℝ) + 1) / (2 : ℝ) ^ z))
      hm_r2 hm_gt
    rwa [yNorm_latOfY] at h
  have hyn_gt : (y : ℝ) / (2 : ℝ) ^ z < yNorm m := by
    have h := yNorm_strictAntiOn hm_r1 (latOfY_lt_90 ((y : ℝ) / (2 : ℝ) ^ z)) hm_lt
    rwa [yNorm_latOfY] at h
  have hyn_pos : 0 < yNorm m :=
    lt_of_le_of_lt (div_nonneg hyR0 hZpos.le) hyn_gt
  have hyn_lt1 : yNorm m < 1 := by
    have hb1 : ((y : ℝ) + 1) / (2 : ℝ) ^ z ≤ 1 := by
      rw [div_le_one hZpos]
      linarith
    linarith
  have hyfloor : ⌊yNorm m * (2 : ℝ) ^ z⌋ = y := by
    rw [Int.floor_eq_iff]
    constructor
    · have h := mul_lt_mul_of_pos_right hyn_gt hZpos
      have hc : (y : ℝ) / (2 : ℝ) ^ z * (2 : ℝ) ^ z = (y : ℝ) := by field_simp
      rw [hc] at h
      exact le_of_lt h
    · have h := mul_lt_mul_of_pos_right hyn_lt hZpos
      have hc : ((y : ℝ) + 1) / (2 : ℝ) ^ z * (2 : ℝ) ^ z = (y : ℝ) + 1 := by
        field_simp
      rw [hc] at h
      push_cast
      linarith
  have hlat2 : centroidLat (mercBounds ⟨x, y, (z : ℤ)⟩) = m := hlat
  unfold mercTile
  simp only [zpow_natCast, hxn, hlat2, TileKey.mk.injEq]
  refine ⟨?_, ?_, trivial⟩
  · rw [if_neg (not_le.mpr hxn_pos), if_neg (not_le.mpr hxn_lt1)]
    exact hxfloor
  · rw [if_neg (not_le.mpr hyn_pos), if_neg (not_le.mpr hyn_lt1)]
    exact hyfloor

/-- Witness for C8 at the root tile (0, 0, 0). -/
theorem claim_C8_roundtrip_witness :
    (0 : ℤ) ≤ 0 ∧ (0 : ℤ) < 2 ^ (0 : ℕ) ∧
    mercTile (centroidLng (mercBounds ⟨0, 0, ((0 : ℕ) : ℤ)⟩))
      (centroidLat (mercBounds ⟨0, 0, ((0 : ℕ) : ℤ)⟩)) ((0 : ℕ) : ℤ) =
      ⟨0, 0, ((0 : ℕ) : ℤ)⟩ :=
  ⟨le_rfl, by norm_num,
    claim_C8_roundtrip 0 0 0 le_rfl (by norm_num) le_rfl (by norm_num)⟩

theorem lookupKey_cons {α : Type} (k : TileKey) (v : α) (l : List (TileKey × α))
    (kq : TileKey) :
    lookupKey ((k, v) :: l) kq = if k = kq then some v else lookupKey l kq := rfl

theorem subT_cons {T : TileKey → TileGrid} {l : List (TileKey × TileGrid)}
    (h : subT T l) (k : TileKey) : subT T ((k, T k) :: l) := by
  intro kq gq hl
  rw [lookupKey_cons] at hl
  by_cases h2 : k = kq
  · rw [if_pos h2] at hl
    rw [← h2]
    exact (Option.some.inj hl).symm
  · rw [if_neg h2] at hl
    exact h _ _ hl

theorem lookupKey_cons_isSome {α : Type} (k : TileKey) (v : α)
    (l : List (TileKey × α)) (kq : TileKey)
    (h : (lookupKey l kq).isSome = true) :
    (lookupKey ((k, v) :: l) kq).isSome = true := by
  rw [lookupKey_cons]
  by_cases h2 : k = kq
  · rw [if_pos h2]
    rfl
  · rw [if_neg h2]
    exact h

theorem lookupKey_cons_self {α : Type} (k : TileKey) (v : α)
    (l : List (TileKey × α)) :
    (lookupKey ((k, v) :: l) k).isSome = true := by
  rw [lookupKey_cons, if_pos rfl]
  rfl

/-- Characterisation of one pixel-loop iteration under a provider that
agrees with the pure tile assignment `T`: the produced pixel is the pure
pixel, the state stays good, the store only grows, and the touched tile key
ends up in the store. -/
theorem samplePoint_pure (T : TileKey → TileGrid) (provider : Provider)
    (hprov : ∀ k, provider k = .ok (T k)) (zoom : ℤ) (lon lat : ℝ)
    (st : StitchState) (hst : goodState T st) :
    (pixelPure T zoom lon lat = none →
      samplePoint provider zoom lon lat st = .error .indexError) ∧
    (∀ c, pixelPure T zoom lon lat = some c →
      ∃ st2, samplePoint provider zoom lon lat st = .ok (c, st2) ∧
        goodState T st2 ∧
        (∀ k2, (lookupKey st.store k2).isSome = true →
          (lookupKey st2.store k2).isSome = true) ∧
        (lookupKey st2.store (mercTile lon lat zoom)).isSome = true) := by
  obtain ⟨hmemo, hstore, hms⟩ := hst
  have hchar : ∃ st2, goodState T st2 ∧
      (∀ k2, (lookupKey st.store k2).isSome = true →
        (lookupKey st2.store k2).isSome = true) ∧
      (lookupKey st2.store (mercTile lon lat zoom)).isSome = true ∧
      samplePoint provider zoom lon lat st =
        (match pixelPure T zoom lon lat with
         | some c => .ok (c, st2)
         | none => .error .indexError) := by
    cases hm : lookupKey st.memo (mercTile lon lat zoom) with
    | some g =>
      have hg : g = T (mercTile lon lat zoom) := hmemo _ _ hm
      refine ⟨st, ⟨hmemo, hstore, hms⟩, fun k2 h => h, ?_, ?_⟩
      · exact hms _ (by rw [hm]; rfl)
      · subst hg
        simp only [samplePoint, pixelPure, hm]
    | none =>
      cases hs : lookupKey st.store (mercTile lon lat zoom) with
      | some g =>
        have hg : g = T (mercTile lon lat zoom) := hstore _ _ hs
        refine ⟨⟨(mercTile lon lat zoom, T (mercTile lon lat zoom)) :: st.memo,
          st.store, mercTile lon lat zoom :: st.loads, st.fetches⟩,
          ⟨subT_cons hmemo _, hstore, ?_⟩, fun k2 h => h, by rw [hs]; rfl, ?_⟩
        · intro k2 hk2
          rw [lookupKey_cons] at hk2
          by_cases h2 : mercTile lon lat zoom = k2
          · rw [← h2, hs]
            rfl
          · rw [if_neg h2] at hk2
            exact hms _ hk2
        · subst hg
          simp only [samplePoint, pixelPure, hm, load_or_fetch_tile, hs]
          rfl
      | none =>
        refine ⟨⟨(mercTile lon lat zoom, T (mercTile lon lat zoom)) :: st.memo,
          (mercTile lon lat zoom, T (mercTile lon lat zoom)) :: st.store,
          mercTile lon lat zoom :: st.loads,
          mercTile lon lat zoom :: st.fetches⟩,
          ⟨subT_cons hmemo _, subT_cons hstore _, ?_⟩,
          fun k2 h => lookupKey_cons_isSome _ _ _ _ h,
          lookupKey_cons_self _ _ _, ?_⟩
        · intro k2 hk2
          rw [lookupKey_cons] at hk2
          by_cases h2 : mercTile lon lat zoom = k2
          · rw [← h2]
            exact lookupKey_cons_self _ _ _
          · rw [if_neg h2] at hk2
            exact lookupKey_cons_isSome _ _ _ _ (hms _ hk2)
        · simp only [samplePoint, pixelPure, hm, load_or_fetch_tile, hs, hprov]
          rfl
  obtain ⟨st2, hgood, hmono, hkey, heq⟩ := hchar
  constructor
  · intro hn
    rw [heq, hn]
  · intro c hc
    refine ⟨st2, ?_, hgood, hmono, hkey⟩
    rw [heq, hc]

/-- Row-level consequence of `samplePoint_pure`: a raster row is the pure
row, the state stays good, the store grows, and all touched keys end up
stored. -/
theorem runRow_pure (T : TileKey → TileGrid) (provider : Provider)
    (hprov : ∀ k, provider k = .ok (T k)) (zoom : ℤ) (lat : ℝ)
    (lons : List ℝ) : ∀ (st : StitchState), goodState T st →
    (rowPure T zoom lat lons = none →
      runRow provider zoom lat lons st = .error .indexError) ∧
    (∀ row, rowPure T zoom lat lons = some row →
      ∃ st2, runRow provider zoom lat lons st = .ok (row, st2) ∧ goodState T st2 ∧
        (∀ k2, (lookupKey st.store k2).isSome = true →
          (lookupKey st2.store k2).isSome = true) ∧
        ∀ lon ∈ lons, (lookupKey st2.store (mercTile lon lat zoom)).isSome = true) := by
  induction lons with
  | nil =>
    intro st hst
    constructor
    · intro h
      simp [rowPure] at h
    · intro row hrow
      have hr : row = [] := (Option.some.inj hrow).symm
      subst hr
      exact ⟨st, rfl, hst, fun k2 h => h, fun lon h => absurd h (List.not_mem_nil lon)⟩
  | cons lon rest ih =>
    intro st hst
    obtain ⟨hperr, hpok⟩ := samplePoint_pure T provider hprov zoom lon lat st hst
    constructor
    · intro h
      cases hp : pixelPure T zoom lon lat with
      | none =>
        simp only [runRow, hperr hp]
      | some c =>
        obtain ⟨st1, hrun, hg1, hmono1, hkey1⟩ := hpok c hp
        obtain ⟨iherr, ihok⟩ := ih st1 hg1
        cases hrest : rowPure T zoom lat rest with
        | none =>
          simp only [runRow, hrun, iherr hrest]
        | some cs =>
          exfalso
          simp only [rowPure, hp, hrest] at h
          exact Option.noConfusion h
    · intro row hrow
      cases hp : pixelPure T zoom lon lat with
      | none =>
        exfalso
        simp only [rowPure, hp] at hrow
        exact Option.noConfusion hrow
      | some c =>
        obtain ⟨st1, hrun, hg1, hmono1, hkey1⟩ := hpok c hp
        obtain ⟨iherr, ihok⟩ := ih st1 hg1
        cases hrest : rowPure T zoom lat rest with
        | none =>
          exfalso
          simp only [rowPure, hp, hrest] at hrow
          exact Option.noConfusion hrow
        | some cs =>
          have hr : row = c :: cs := by
            simp only [rowPure, hp, hrest] at hrow
            exact (Option.some.inj hrow).symm
          subst hr
          obtain ⟨st2, hrun2, hg2, hmono2, hcov2⟩ := ihok cs hrest
          refine ⟨st2, ?_, hg2, fun k2 h => hmono2 _ (hmono1 _ h), ?_⟩
          · simp only [runRow, hrun, hrun2]
          · intro lon2 hmem
            rcases List.mem_cons.mp hmem with h | h
            · subst h
              exact hmono2 _ hkey1
            · exact hcov2 _ h

/-- Raster-level consequence of `runRow_pure`: the whole raster is the pure
raster and every tile key needed by any sample point ends up stored. -/
theorem runRows_pure (T : TileKey → TileGrid) (provider : Provider)
    (hprov : ∀ k, provider k = .ok (T k)) (zoom : ℤ) (lons : List ℝ)
    (lats : List ℝ) : ∀ (st : StitchState), goodState T st →
    (rowsPure T zoom lons lats = none →
      runRows provider zoom lons lats st = .error .indexError) ∧
    (∀ t, rowsPure T zoom lons lats = some t →
      ∃ st2, runRows provider zoom lons lats st = .ok (t, st2) ∧ goodState T st2 ∧
        (∀ k2, (lookupKey st.store k2).isSome = true →
          (lookupKey st2.store k2).isSome = true) ∧
        ∀ lat2 ∈ lats, ∀ lon2 ∈ lons,
          (lookupKey st2.store (mercTile lon2 lat2 zoom)).isSome = true) := by
  induction lats with
  | nil =>
    intro st hst
    constructor
    · intro h
      simp [rowsPure] at h
    · intro t ht
      have hr : t = [] := (Option.some.inj ht).symm
      subst hr
      exact ⟨st, rfl, hst, fun k2 h => h, fun lat2 h => absurd h (List.not_mem_nil lat2)⟩
  | cons lat rest ih =>
    intro st hst
    obtain ⟨hrerr, hrok⟩ := runRow_pure T provider hprov zoom lat lons st hst
    constructor
    · intro h
      cases hp : rowPure T zoom lat lons with
      | none =>
        simp only [runRows, hrerr hp]
      | some row =>
        obtain ⟨st1, hrun, hg1, hmono1, hkey1⟩ := hrok row hp
        obtain ⟨iherr, ihok⟩ := ih st1 hg1
        cases hrest : rowsPure T zoom lons rest with
        | none =>
          simp only [runRows, hrun, iherr hrest]
        | some rows =>
          exfalso
          simp only [rowsPure, hp, hrest] at h
          exact Option.noConfusion h
    · intro t ht
      cases hp : rowPure T zoom lat lons with
      | none =>
        exfalso
        simp only [rowsPure, hp] at ht
        exact Option.noConfusion ht
      | some row =>
        obtain ⟨st1, hrun, hg1, hmono1, hkey1⟩ := hrok row hp
        obtain ⟨iherr, ihok⟩ := ih st1 hg1
        cases hrest : rowsPure T zoom lons rest with
        | none =>
          exfalso
          simp only [rowsPure, hp, hrest] at ht
          exact Option.noConfusion ht
        | some rows =>
          have hr : t = row :: rows := by
            simp only [rowsPure, hp, hrest] at ht
            exact (Option.some.inj ht).symm
          subst hr
          obtain ⟨st2, hrun2, hg2, hmono2, hcov2⟩ := ihok rows hrest
          refine ⟨st2, ?_, hg2, fun k2 h => hmono2 _ (hmono1 _ h), ?_⟩
          · simp only [runRows, hrun, hrun2]
          · intro lat2 hmem lon2 hlon
            rcases List.mem_cons.mp hmem with h | h
            · subst h
              exact hmono2 _ (hkey1 _ hlon)
            · exact hcov2 _ h _ hlon

theorem sample_match_state (ob : Option RGB) (stA : StitchState) (c : RGB)
    (st2 : StitchState)
    (h : (match ob with
          | some c2 => (Except.ok (c2, stA) : Except Err (RGB × StitchState))
          | none => Except.error Err.indexError) = Except.ok (c, st2)) :
    st2 = stA := by
  cases ob with
  | some c2 =>
    have h2 := Except.ok.inj h
    exact (congrArg Prod.snd h2).symm
  | none => exact Except.noConfusion h

/-- Exhaustive case analysis of a successful pixel-loop iteration: a memo
hit leaves the state unchanged; otherwise the key is appended to the memo
and load log, and on a store miss it is also fetched and persisted. -/
theorem samplePoint_cases (provider : Provider) (zoom : ℤ) (lon lat : ℝ)
    (st : StitchState) (c : RGB) (st2 : StitchState)
    (h : samplePoint provider zoom lon lat st = .ok (c, st2)) :
    ((lookupKey st.memo (mercTile lon lat zoom)).isSome = true ∧ st2 = st) ∨
    ∃ g, lookupKey st.memo (mercTile lon lat zoom) = none ∧
      ((lookupKey st.store (mercTile lon lat zoom) = some g ∧
        st2 = ⟨(mercTile lon lat zoom, g) :: st.memo, st.store,
               mercTile lon lat zoom :: st.loads, st.fetches⟩) ∨
       (lookupKey st.store (mercTile lon lat zoom) = none ∧
        provider (mercTile lon lat zoom) = .ok g ∧
        st2 = ⟨(mercTile lon lat zoom, g) :: st.memo,
               (mercTile lon lat zoom, g) :: st.store,
               mercTile lon lat zoom :: st.loads,
               mercTile lon lat zoom :: st.fetches⟩)) := by
  cases hm : lookupKey st.memo (mercTile lon lat zoom) with
  | some g =>
    left
    refine ⟨rfl, ?_⟩
    simp only [samplePoint, hm] at h
    exact sample_match_state _ _ _ _ h
  | none =>
    cases hs : lookupKey st.store (mercTile lon lat zoom) with
    | some g =>
      right
      refine ⟨g, rfl, Or.inl ⟨rfl, ?_⟩⟩
      simp only [samplePoint, hm, load_or_fetch_tile, hs] at h
      have h2 := sample_match_state _ _ _ _ h
      simpa using h2
    | none =>
      cases hp : provider (mercTile lon lat zoom) with
      | error e =>
        exfalso
        simp only [samplePoint, hm, load_or_fetch_tile, hs, hp] at h
        exact Except.noConfusion h
      | ok g =>
        right
        refine ⟨g, rfl, Or.inr ⟨rfl, rfl, ?_⟩⟩
        simp only [samplePoint, hm, load_or_fetch_tile, hs, hp] at h
        have h2 := sample_match_state _ _ _ _ h
        simpa using h2

theorem samplePoint_loadsInv {provider : Provider} {zoom : ℤ} {lon lat : ℝ}
    {st : StitchState} {c : RGB} {st2 : StitchState}
    (h : samplePoint provider zoom lon lat st = .ok (c, st2))
    (hinv : loadsInv st) : loadsInv st2 := by
  rcases samplePoint_cases provider zoom lon lat st c st2 h with
    ⟨-, rfl⟩ | ⟨g, hm, hrest⟩
  · exact hinv
  · have hknot : mercTile lon lat zoom ∉ st.loads := by
      intro hmem
      have h2 := (hinv.2 _).mp hmem
      rw [hm] at h2
      simp at h2
    have hmemoInv : ∀ k2, k2 ∈ mercTile lon lat zoom :: st.loads ↔
        (lookupKey ((mercTile lon lat zoom, g) :: st.memo) k2).isSome = true := by
      intro k2
      rw [List.mem_cons, lookupKey_cons]
      by_cases h2 : mercTile lon lat zoom = k2
      · simp [h2]
      · rw [if_neg h2]
        constructor
        · intro hc
          rcases hc with hc | hc
          · exact absurd hc.symm h2
          · exact (hinv.2 _).mp hc
        · intro hc
          exact Or.inr ((hinv.2 _).mpr hc)
    rcases hrest with ⟨-, rfl⟩ | ⟨-, -, rfl⟩
    · exact ⟨List.nodup_cons.mpr ⟨hknot, hinv.1⟩, hmemoInv⟩
    · exact ⟨List.nodup_cons.mpr ⟨hknot, hinv.1⟩, hmemoInv⟩

theorem runRow_loadsInv {provider : Provider} {zoom : ℤ} {lat : ℝ} :
    ∀ {lons : List ℝ} {st : StitchState} {row : List RGB} {st2 : StitchState},
      runRow provider zoom lat lons st = .ok (row, st2) → loadsInv st → loadsInv st2
  | [], st, row, st2, h, hinv => by
    simp only [runRow] at h
    have h3 : st = st2 := congrArg Prod.snd (Except.ok.inj h)
    rw [← h3]
    exact hinv
  | lon :: rest, st, row, st2, h, hinv => by
    cases hsp : samplePoint provider zoom lon lat st with
    | error e =>
      simp only [runRow, hsp] at h
      exact Except.noConfusion h
    | ok p =>
      obtain ⟨c, st1⟩ := p
      cases hrr : runRow provider zoom lat rest st1 with
      | error e =>
        simp only [runRow, hsp, hrr] at h
        exact Except.noConfusion h
      | ok q =>
        obtain ⟨cs, st3⟩ := q
        simp only [runRow, hsp, hrr] at h
        have h3 : st3 = st2 := congrArg Prod.snd (Except.ok.inj h)
        rw [← h3]
        exact runRow_loadsInv hrr (samplePoint_loadsInv hsp hinv)

theorem runRows_loadsInv {provider : Provider} {zoom : ℤ} {lons : List ℝ} :
    ∀ {lats : List ℝ} {st : StitchState} {t : Texture} {st2 : StitchState},
      runRows provider zoom lons lats st = .ok (t, st2) → loadsInv st → loadsInv st2
  | [], st, t, st2, h, hinv => by
    simp only [runRows] at h
    have h3 : st = st2 := congrArg Prod.snd (Except.ok.inj h)
    rw [← h3]
    exact hinv
  | lat :: rest, st, t, st2, h, hinv => by
    cases hrw : runRow provider zoom lat lons st with
    | error e =>
      simp only [runRows, hrw] at h
      exact Except.noConfusion h
    | ok p =>
      obtain ⟨row, st1⟩ := p
      cases hrr : runRows provider zoom lons rest st1 with
      | error e =>
        simp only [runRows, hrw, hrr] at h
        exact Except.noConfusion h
      | ok q =>
        obtain ⟨rows, st3⟩ := q
        simp only [runRows, hrw, hrr] at h
        have h3 : st3 = st2 := congrArg Prod.snd (Except.ok.inj h)
        rw [← h3]
        exact runRows_loadsInv hrr (runRow_loadsInv hrw hinv)

theorem runRow_length {provider : Provider} {zoom : ℤ} {lat : ℝ} :
    ∀ {lons : List ℝ} {st : StitchState} {row : List RGB} {st2 : StitchState},
      runRow provider zoom lat lons st = .ok (row, st2) → row.length = lons.length
  | [], st, row, st2, h => by
    simp only [runRow] at h
    have h3 : ([] : List RGB) = row := congrArg Prod.fst (Except.ok.inj h)
    rw [← h3]
    rfl
  | lon :: rest, st, row, st2, h => by
    cases hsp : samplePoint provider zoom lon lat st with
    | error e =>
      simp only [runRow, hsp] at h
      exact Except.noConfusion h
    | ok p =>
      obtain ⟨c, st1⟩ := p
      cases hrr : runRow provider zoom lat rest st1 with
      | error e =>
        simp only [runRow, hsp, hrr] at h
        exact Except.noConfusion h
      | ok q =>
        obtain ⟨cs, st3⟩ := q
        simp only [runRow, hsp, hrr] at h
        have h3 : c :: cs = row := congrArg Prod.fst (Except.ok.inj h)
        rw [← h3, List.length_cons, List.length_cons, runRow_length hrr]

theorem runRows_shape {provider : Provider} {zoom : ℤ} {lons : List ℝ} :
    ∀ {lats : List ℝ} {st : StitchState} {t : Texture} {st2 : StitchState},
      runRows provider zoom lons lats st = .ok (t, st2) →
      t.length = lats.length ∧ ∀ row ∈ t, row.length = lons.length
  | [], st, t, st2, h => by
    simp only [runRows] at h
    have h3 : ([] : Texture) = t := congrArg Prod.fst (Except.ok.inj h)
    rw [← h3]
    exact ⟨rfl, fun row hr => absurd hr (List.not_mem_nil row)⟩
  | lat :: rest, st, t, st2, h => by
    cases hrw : runRow provider zoom lat lons st with
    | error e =>
      simp only [runRows, hrw] at h
      exact Except.noConfusion h
    | ok p =>
      obtain ⟨row, st1⟩ := p
      cases hrr : runRows provider zoom lons rest st1 with
      | error e =>
        simp only [runRows, hrw, hrr] at h
        exact Except.noConfusion h
      | ok q =>
        obtain ⟨rows, st3⟩ := q
        simp only [runRows, hrw, hrr] at h
        have h3 : row :: rows = t := congrArg Prod.fst (Except.ok.inj h)
        obtain ⟨ih1, ih2⟩ := runRows_shape hrr
        rw [← h3, List.length_cons, List.length_cons, ih1]
        refine ⟨rfl, ?_⟩
        intro row2 hr2
        rcases List.mem_cons.mp hr2 with h4 | h4
        · rw [h4]
          exact runRow_length hrw
        · exact ih2 _ h4

theorem samplePoint_nofetch {provider : Provider} {zoom : ℤ} {lon lat : ℝ}
    {st : StitchState} {c : RGB} {st2 : StitchState}
    (hkey : (lookupKey st.store (mercTile lon lat zoom)).isSome = true)
    (h : samplePoint provider zoom lon lat st = .ok (c, st2)) :
    st2.fetches = st.fetches ∧ st2.store = st.store := by
  rcases samplePoint_cases provider zoom lon lat st c st2 h with
    ⟨-, rfl⟩ | ⟨g, hm, hrest⟩
  · exact ⟨rfl, rfl⟩
  · rcases hrest with ⟨-, rfl⟩ | ⟨hs, -, rfl⟩
    · exact ⟨rfl, rfl⟩
    · rw [hs] at hkey
      simp at hkey

theorem runRow_nofetch {provider : Provider} {zoom : ℤ} {lat : ℝ} :
    ∀ {lons : List ℝ} {st : StitchState} {row : List RGB} {st2 : StitchState},
      (∀ lon ∈ lons, (lookupKey st.store (mercTile lon lat zoom)).isSome = true) →
      runRow provider zoom lat lons st = .ok (row, st2) →
      st2.fetches = st.fetches ∧ st2.store = st.store
  | [], st, row, st2, hkeys, h => by
    simp only [runRow] at h
    have h3 : st = st2 := congrArg Prod.snd (Except.ok.inj h)
    rw [← h3]
    exact ⟨rfl, rfl⟩
  | lon :: rest, st, row, st2, hkeys, h => by
    cases hsp : samplePoint provider zoom lon lat st with
    | error e =>
      simp only [runRow, hsp] at h
      exact Except.noConfusion h
    | ok p =>
      obtain ⟨c, st1⟩ := p
      obtain ⟨hf1, hs1⟩ := samplePoint_nofetch (hkeys lon (List.mem_cons_self lon rest)) hsp
      cases hrr : runRow provider zoom lat rest st1 with
      | error e =>
        simp only [runRow, hsp, hrr] at h
        exact Except.noConfusion h
      | ok q =>
        obtain ⟨cs, st3⟩ := q
        simp only [runRow, hsp, hrr] at h
        have h3 : st3 = st2 := congrArg Prod.snd (Except.ok.inj h)
        have hkeys1 : ∀ lon2 ∈ rest,
            (lookupKey st1.store (mercTile lon2 lat zoom)).isSome = true := by
          intro lon2 hmem
          rw [hs1]
          exact hkeys lon2 (List.mem_cons_of_mem lon hmem)
        obtain ⟨hf2, hs2⟩ := runRow_nofetch hkeys1 hrr
        rw [← h3]
        exact ⟨hf2.trans hf1, hs2.trans hs1⟩

theorem runRows_nofetch {provider : Provider} {zoom : ℤ} {lons : List ℝ} :
    ∀ {lats : List ℝ} {st : StitchState} {t : Texture} {st2 : StitchState},
      (∀ lat ∈ lats, ∀ lon ∈ lons,
        (lookupKey st.store (mercTile lon lat zoom)).isSome = true) →
      runRows provider zoom lons lats st = .ok (t, st2) →
      st2.fetches = st.fetches ∧ st2.store = st.store
  | [], st, t, st2, hkeys, h => by
    simp only [runRows] at h
    have h3 : st = st2 := congrArg Prod.snd (Except.ok.inj h)
    rw [← h3]
    exact ⟨rfl, rfl⟩
  | lat :: rest, st, t, st2, hkeys, h => by
    cases hrw : runRow provider zoom lat lons st with
    | error e =>
      simp only [runRows, hrw] at h
      exact Except.noConfusion h
    | ok p =>
      obtain ⟨row, st1⟩ := p
      obtain ⟨hf1, hs1⟩ :=
        runRow_nofetch (hkeys lat (List.mem_cons_self lat rest)) hrw
      cases hrr : runRows provider zoom lons rest st1 with
      | error e =>
        simp only [runRows, hrw, hrr] at h
        exact Except.noConfusion h
      | ok q =>
        obtain ⟨rows, st3⟩ := q
        simp only [runRows, hrw, hrr] at h
        have h3 : st3 = st2 := congrArg Prod.snd (Except.ok.inj h)
        have hkeys1 : ∀ lat2 ∈ rest, ∀ lon2 ∈ lons,
            (lookupKey st1.store (mercTile lon2 lat2 zoom)).isSome = true := by
          intro lat2 hmem lon2 hlon
          rw [hs1]
          exact hkeys lat2 (List.mem_cons_of_mem lat hmem) lon2 hlon
        obtain ⟨hf2, hs2⟩ := runRows_nofetch hkeys1 hrr
        rw [← h3]
        exact ⟨hf2.trans hf1, hs2.trans hs1⟩

theorem linspace_length (a b : ℝ) (n : ℕ) : (linspace a b n).length = n := by
  unfold linspace
  rw [List.length_map, List.length_range]

theorem linspace_get (a b : ℝ) (n j : ℕ) (h : j < n) :
    (linspace a b n).get? j = some (linVal a b n j) := by
  unfold linspace
  rw [List.get?_map, List.get?_range h]
  rfl

theorem goodState_init (T : TileKey → TileGrid) (store : DiskStore)
    (hsub : subT T store) : goodState T ⟨[], store, [], []⟩ := by
  refine ⟨?_, hsub, ?_⟩
  · intro k g hl
    simp [lookupKey] at hl
  · intro k hk
    simp [lookupKey] at hk

theorem loadsInv_init (store : DiskStore) : loadsInv ⟨[], store, [], []⟩ := by
  constructor
  · exact List.nodup_nil
  · intro k
    simp [lookupKey]

theorem rowPure_get {T : TileKey → TileGrid} {zoom : ℤ} {lat : ℝ} :
    ∀ {lons : List ℝ} {row : List RGB}, rowPure T zoom lat lons = some row →
      ∀ (j : ℕ) (lon : ℝ), lons.get? j = some lon →
        row.get? j = pixelPure T zoom lon lat
  | [], row, h, j, lon, hj => by
    simp at hj
  | lon0 :: rest, row, h, j, lon, hj => by
    cases hp : pixelPure T zoom lon0 lat with
    | none =>
      exfalso
      simp only [rowPure, hp] at h
      exact Option.noConfusion h
    | some c =>
      cases hrest : rowPure T zoom lat rest with
      | none =>
        exfalso
        simp only [rowPure, hp, hrest] at h
        exact Option.noConfusion h
      | some cs =>
        simp only [rowPure, hp, hrest] at h
        have hrow : c :: cs = row := Option.some.inj h
        rw [← hrow]
        cases j with
        | zero =>
          have hlon : lon0 = lon := Option.some.inj hj
          rw [← hlon]
          exact hp.symm
        | succ j2 =>
          have hj2 : rest.get? j2 = some lon := hj
          exact rowPure_get hrest j2 lon hj2

theorem rowsPure_get {T : TileKey → TileGrid} {zoom : ℤ} {lons : List ℝ} :
    ∀ {lats : List ℝ} {t : Texture}, rowsPure T zoom lons lats = some t →
      ∀ (i : ℕ) (lat : ℝ), lats.get? i = some lat →
        ∃ row, t.get? i = some row ∧ rowPure T zoom lat lons = some row
  | [], t, h, i, lat, hi => by
    simp at hi
  | lat0 :: rest, t, h, i, lat, hi => by
    cases hp : rowPure T zoom lat0 lons with
    | none =>
      exfalso
      simp only [rowsPure, hp] at h
      exact Option.noConfusion h
    | some row0 =>
      cases hrest : rowsPure T zoom lons rest with
      | none =>
        exfalso
        simp only [rowsPure, hp, hrest] at h
        exact Option.noConfusion h
      | some rows =>
        simp only [rowsPure, hp, hrest] at h
        have ht : row0 :: rows = t := Option.some.inj h
        rw [← ht]
        cases i with
        | zero =>
          have hlat : lat0 = lat := Option.some.inj hi
          rw [hlat] at hp
          exact ⟨row0, rfl, hp⟩
        | succ i2 =>
          have hi2 : rest.get? i2 = some lat := hi
          exact rowsPure_get hrest i2 lat hi2

theorem subT_nil (T : TileKey → TileGrid) : subT T [] := by
  intro k g h
  simp [lookupKey] at h

theorem subT_single (g0 : TileGrid) (k : TileKey) :
    subT (fun _ => g0) [(k, g0)] := by
  intro k2 g2 h
  rw [lookupKey_cons] at h
  by_cases h2 : k = k2
  · rw [if_pos h2] at h
    exact (Option.some.inj h).symm
  · rw [if_neg h2] at h
    simp [lookupKey] at h

/-- A successful stitch against a `T`-consistent store computes exactly the
pure raster, leaves a good state, and its final store holds every tile key
any sample point needed. -/
theorem stitch_ok_pure (T : TileKey → TileGrid) (provider : Provider)
    (hprov : ∀ k, provider k = .ok (T k)) (store : DiskStore)
    (hsub : subT T store) (min_lon min_lat max_lon max_lat : ℚ) (W H : ℕ)
    (zoom : ℤ) (t : Texture) (st2 : StitchState)
    (hrun : stitch provider store min_lon min_lat max_lon max_lat W H zoom =
      .ok (t, st2)) :
    rowsPure T zoom (linspace (min_lon : ℝ) (max_lon : ℝ) W)
      (linspace (max_lat : ℝ) (min_lat : ℝ) H) = some t ∧
    goodState T st2 ∧
    ∀ lat2 ∈ linspace (max_lat : ℝ) (min_lat : ℝ) H,
      ∀ lon2 ∈ linspace (min_lon : ℝ) (max_lon : ℝ) W,
        (lookupKey st2.store (mercTile lon2 lat2 zoom)).isSome = true := by
  obtain ⟨herr, hok⟩ := runRows_pure T provider hprov zoom
    (linspace (min_lon : ℝ) (max_lon : ℝ) W)
    (linspace (max_lat : ℝ) (min_lat : ℝ) H)
    ⟨[], store, [], []⟩ (goodState_init T store hsub)
  cases hrp : rowsPure T zoom (linspace (min_lon : ℝ) (max_lon : ℝ) W)
      (linspace (max_lat : ℝ) (min_lat : ℝ) H) with
  | none =>
    exfalso
    unfold stitch at hrun
    rw [herr hrp] at hrun
    exact Except.noConfusion hrun
  | some t2 =>
    obtain ⟨st3, hrun2, hg, hmono, hcov⟩ := hok t2 hrp
    unfold stitch at hrun
    rw [hrun2] at hrun
    have h2 := Except.ok.inj hrun
    have ht : t2 = t := congrArg Prod.fst h2
    have hst : st3 = st2 := congrArg Prod.snd h2
    rw [← ht, ← hst]
    exact ⟨rfl, hg, hcov⟩

theorem runRows_empty_lons (provider : Provider) (zoom : ℤ) :
    ∀ (lats : List ℝ) (st : StitchState),
      runRows provider zoom [] lats st =
        .ok (lats.map (fun _ => ([] : List RGB)), st)
  | [], st => rfl
  | lat :: rest, st => by
    simp only [runRows, runRow, runRows_empty_lons provider zoom rest st, List.map]

theorem map_const_nil {α : Type} : ∀ (l : List α),
    l.map (fun _ => ([] : List RGB)) = List.replicate l.length []
  | [] => rfl
  | a :: rest => by
    simp only [List.map, List.length_cons, List.replicate_succ, map_const_nil rest]

/-- With `texture_width = 0` the pixel loops never touch a tile: the stitch
returns `H` empty rows and the request state is untouched. -/
theorem stitch_width_zero (provider : Provider) (store : DiskStore)
    (ml mt Ml Mt : ℚ) (H : ℕ) (zoom : ℤ) :
    stitch provider store ml mt Ml Mt 0 H zoom =
      .ok (List.replicate H [], ⟨[], store, [], []⟩) := by
  unfold stitch
  rw [show linspace ((ml : ℚ) : ℝ) ((Ml : ℚ) : ℝ) 0 = [] from rfl]
  rw [runRows_empty_lons, map_const_nil, linspace_length]

theorem samplePoint_fail (e : Err) (zoom : ℤ) (lon lat : ℝ) (store : DiskStore)
    (hs : lookupKey store (mercTile lon lat zoom) = none) :
    samplePoint (fun _ => .error e) zoom lon lat ⟨[], store, [], []⟩ =
      .error e := by
  simp only [samplePoint, lookupKey, load_or_fetch_tile, hs]

theorem linspace_ne_nil (a b : ℝ) (n : ℕ) (h : 1 ≤ n) :
    ∃ v rest, linspace a b n = v :: rest := by
  cases hL : linspace a b n with
  | nil =>
    exfalso
    have h2 := linspace_length a b n
    rw [hL] at h2
    simp at h2
    omega
  | cons v rest => exact ⟨v, rest, rfl⟩

/-- With positive output dimensions and an empty durable cache, the first
sample point already requires a provider fetch: an always-failing provider
aborts the whole stitch with its error. -/
theorem stitch_fail (e : Err) (min_lon min_lat max_lon max_lat : ℚ)
    (W H : ℕ) (zoom : ℤ) (hW : 1 ≤ W) (hH : 1 ≤ H) :
    stitch (fun _ => .error e) [] min_lon min_lat max_lon max_lat W H zoom =
      .error e := by
  obtain ⟨lat0, lats2, hlats⟩ :=
    linspace_ne_nil ((max_lat : ℚ) : ℝ) ((min_lat : ℚ) : ℝ) H hH
  obtain ⟨lon0, lons2, hlons⟩ :=
    linspace_ne_nil ((min_lon : ℚ) : ℝ) ((max_lon : ℚ) : ℝ) W hW
  unfold stitch
  rw [hlats, hlons]
  have hsp := samplePoint_fail e zoom lon0 lat0 [] (by simp [lookupKey])
  simp only [runRows, runRow, hsp]

/-- C1: for every bbox with min < max on both axes, widths and heights of at
least 1 and any zoom, a successful stitch has pixel (i, j) equal to the
bilinear sample of the tile containing the (i, j)-th sample point: the `W`
longitude samples are `np.linspace(min_lon, max_lon, W)` (`linVal`), the `H`
latitude samples descend from `max_lat` to `min_lat` (row 0 is northmost),
and the sampled value is `pixelPure` — `bilinear_sample` of the containing
tile at `((lon − west)/(east − west)·255, (north − lat)/(north − south)·255)`
with `255 = S − 1`, `S = 256`. -/
theorem claim_C1_stitched_pixels (T : TileKey → TileGrid) (provider : Provider)
    (hprov : ∀ k, provider k = .ok (T k)) (store : DiskStore)
    (hsub : subT T store) (min_lon min_lat max_lon max_lat : ℚ) (W H : ℕ)
    (zoom : ℤ) (hlon : min_lon < max_lon) (hlat : min_lat < max_lat)
    (hW : 1 ≤ W) (hH : 1 ≤ H) (t : Texture) (st2 : StitchState)
    (hrun : stitch provider store min_lon min_lat max_lon max_lat W H zoom =
      .ok (t, st2)) (i j : ℕ) (hi : i < H) (hj : j < W) :
    (t.get? i).isSome = true ∧
    (t.get? i).bind (fun row => row.get? j) =
      pixelPure T zoom (linVal ((min_lon : ℚ) : ℝ) ((max_lon : ℚ) : ℝ) W j)
        (linVal ((max_lat : ℚ) : ℝ) ((min_lat : ℚ) : ℝ) H i) := by
  obtain ⟨hpure, -, -⟩ := stitch_ok_pure T provider hprov store hsub
    min_lon min_lat max_lon max_lat W H zoom t st2 hrun
  obtain ⟨row, hrow, hrp⟩ := rowsPure_get hpure i _ (linspace_get _ _ _ _ hi)
  have hcell := rowPure_get hrp j _ (linspace_get _ _ _ _ hj)
  rw [hrow]
  refine ⟨rfl, ?_⟩
  rw [Option.some_bind]
  exact hcell

/-- C3 counterexample: with width 0 the stitch returns an empty raster and
empty load and fetch logs — it does not fail with InvalidParameters and no
fetch happens — and with zoom = -1 and positive dimensions the stitch does
attempt a tile fetch: an always-failing provider makes the request fail
with that fetch error, not with InvalidParameters. -/
theorem claim_C3_validation_counterexample :
    stitch (fun _ => .ok cornerGrid) [] 0 (-1) 1 0 0 5 12 =
      .ok (List.replicate 5 [], ⟨[], [], [], []⟩) ∧
    stitch (fun _ => .ok cornerGrid) [] 0 (-1) 1 0 0 5 12 ≠
      .error .invalidParameters ∧
    stitch (fun _ => .error .fetch) [] 0 (-1) 1 0 1 1 (-1) = .error .fetch ∧
    stitch (fun _ => .error .fetch) [] 0 (-1) 1 0 1 1 (-1) ≠
      .error .invalidParameters := by
  have h1 := stitch_width_zero (fun _ => .ok cornerGrid) [] 0 (-1) 1 0 5 12
  have h2 := stitch_fail .fetch 0 (-1) 1 0 1 1 (-1) le_rfl le_rfl
  refine ⟨h1, ?_, h2, ?_⟩
  · rw [h1]
    intro hc
    exact Except.noConfusion hc
  · rw [h2]
    intro hc
    have h3 := Except.error.inj hc
    exact Err.noConfusion h3

/-- C3 amended: the stitch endpoint performs no parameter validation and
never fails with InvalidParameters.  Width 0 yields a degenerate raster of
`H` empty rows with no loads and no fetches, for any zoom and bbox; with
positive dimensions any zoom — including -1 — is processed like any other,
and tile fetching is attempted: an always-failing provider aborts the
stitch with its fetch error. -/
theorem claim_C3_no_validation (provider : Provider) (store : DiskStore)
    (ml mt Ml Mt : ℚ) (W H : ℕ) (zoom : ℤ) (e : Err)
    (hW : 1 ≤ W) (hH : 1 ≤ H) :
    stitch provider store ml mt Ml Mt 0 H zoom =
      .ok (List.replicate H [], ⟨[], store, [], []⟩) ∧
    stitch (fun _ => .error e) [] ml mt Ml Mt W H zoom = .error e :=
  ⟨stitch_width_zero provider store ml mt Ml Mt H zoom,
   stitch_fail e ml mt Ml Mt W H zoom hW hH⟩

/-- Witness for the amended C3 at concrete parameters. -/
theorem claim_C3_no_validation_witness :
    stitch (fun _ => .ok cornerGrid) [] 0 (-1) 1 0 0 2 (-1) =
      .ok (List.replicate 2 [], ⟨[], [], [], []⟩) ∧
    stitch (fun _ => .error .fetch) [] 0 (-1) 1 0 3 2 (-1) = .error .fetch :=
  claim_C3_no_validation (fun _ => .ok cornerGrid) [] 0 (-1) 1 0 3 2 (-1) .fetch
    (by norm_num) (by norm_num)

/-- C6: within a single stitch call the tile store is memoized per request:
in a successful stitch the log of keys passed to `load_or_fetch_tile` has
no duplicates — every distinct tile key is loaded at most once — and the
loaded keys are exactly the memoised ones. -/
theorem claim_C6_per_request_memoisation (provider : Provider)
    (store : DiskStore) (ml mt Ml Mt : ℚ) (W H : ℕ) (zoom : ℤ)
    (t : Texture) (st2 : StitchState)
    (hrun : stitch provider store ml mt Ml Mt W H zoom = .ok (t, st2)) :
    st2.loads.Nodup ∧
    ∀ k, k ∈ st2.loads ↔ (lookupKey st2.memo k).isSome = true := by
  unfold stitch at hrun
  exact runRows_loadsInv hrun (loadsInv_init store)

/-- Witness for C6 at a concrete successful run. -/
theorem claim_C6_per_request_memoisation_witness :
    List.Nodup (StitchState.mk [] [] [] []).loads ∧
    ((⟨0, 0, 0⟩ : TileKey) ∈ (StitchState.mk [] [] [] []).loads ↔
      (lookupKey (StitchState.mk ([] : List (TileKey × TileGrid)) [] [] []).memo
        ⟨0, 0, 0⟩).isSome = true) := by
  have h := claim_C6_per_request_memoisation (fun _ => .ok cornerGrid) [] 0
    (-1) 1 0 0 5 12 (List.replicate 5 []) ⟨[], [], [], []⟩
    (stitch_width_zero (fun _ => .ok cornerGrid) [] 0 (-1) 1 0 5 12)
  exact ⟨h.1, h.2 ⟨0, 0, 0⟩⟩

/-- C5: the durable cache fully short-circuits the provider: a cache hit
returns the stored grid with no fetch and no store change; re-running the
identical stitch against the store left by a successful run succeeds,
returns the identical raster, performs zero external fetches and leaves the
store unchanged; and requesting one uncached tile twice fetches exactly
once — the first load fetches and persists, the second is a pure cache hit
returning identical content. -/
theorem claim_C5_cache_idempotence (T : TileKey → TileGrid)
    (provider : Provider) (hprov : ∀ k, provider k = .ok (T k))
    (store : DiskStore) (hsub : subT T store) :
    (∀ k g, lookupKey store k = some g →
      load_or_fetch_tile provider store k = .ok (g, store, false)) ∧
    (∀ (ml mt Ml Mt : ℚ) (W H : ℕ) (zoom : ℤ) (t : Texture) (st2 : StitchState),
      stitch provider store ml mt Ml Mt W H zoom = .ok (t, st2) →
      isOkB (stitch provider st2.store ml mt Ml Mt W H zoom) = true ∧
      ∀ (t2 : Texture) (st3 : StitchState),
        stitch provider st2.store ml mt Ml Mt W H zoom = .ok (t2, st3) →
        t2 = t ∧ st3.fetches = [] ∧ st3.store = st2.store) ∧
    (∀ k g, lookupKey store k = none → provider k = .ok g →
      load_or_fetch_tile provider store k = .ok (g, (k, g) :: store, true) ∧
      load_or_fetch_tile provider ((k, g) :: store) k =
        .ok (g, (k, g) :: store, false)) := by
  refine ⟨?_, ?_, ?_⟩
  · intro k g h
    unfold load_or_fetch_tile
    rw [h]
  · intro ml mt Ml Mt W H zoom t st2 hrun
    obtain ⟨hpure, hgood, hcov⟩ := stitch_ok_pure T provider hprov store hsub
      ml mt Ml Mt W H zoom t st2 hrun
    obtain ⟨herr2, hok2⟩ := runRows_pure T provider hprov zoom
      (linspace ((ml : ℚ) : ℝ) ((Ml : ℚ) : ℝ) W)
      (linspace ((Mt : ℚ) : ℝ) ((mt : ℚ) : ℝ) H)
      ⟨[], st2.store, [], []⟩ (goodState_init T st2.store hgood.2.1)
    obtain ⟨st3, hrun2, -, -, -⟩ := hok2 t hpure
    constructor
    · unfold stitch
      rw [hrun2]
      rfl
    · intro t2 st4 hrun3
      unfold stitch at hrun3
      rw [hrun2] at hrun3
      have h2 := Except.ok.inj hrun3
      have ht : t = t2 := congrArg Prod.fst h2
      have hst : st3 = st4 := congrArg Prod.snd h2
      have hkeys : ∀ lat2 ∈ linspace ((Mt : ℚ) : ℝ) ((mt : ℚ) : ℝ) H,
          ∀ lon2 ∈ linspace ((ml : ℚ) : ℝ) ((Ml : ℚ) : ℝ) W,
          (lookupKey (StitchState.mk [] st2.store [] []).store
            (mercTile lon2 lat2 zoom)).isSome = true := hcov
      obtain ⟨hf, hs⟩ := runRows_nofetch hkeys hrun2
      rw [← ht, ← hst]
      exact ⟨rfl, hf, hs⟩
  · intro k g hnone hp
    constructor
    · unfold load_or_fetch_tile
      rw [hnone, hp]
    · unfold load_or_fetch_tile
      rw [lookupKey_cons, if_pos rfl]

/-- Witness for C5: a concrete store hit, a concrete replayed stitch with
no fetches, and a concrete fetch-once-then-hit pair. -/
theorem claim_C5_cache_idempotence_witness :
    load_or_fetch_tile (fun _ => .ok cornerGrid) [(⟨0, 0, 0⟩, cornerGrid)]
      ⟨0, 0, 0⟩ = .ok (cornerGrid, [(⟨0, 0, 0⟩, cornerGrid)], false) ∧
    isOkB (stitch (fun _ => .ok cornerGrid) [] 0 (-1) 1 0 0 5 12) = true ∧
    load_or_fetch_tile (fun _ => .ok cornerGrid) [] ⟨0, 0, 0⟩ =
      .ok (cornerGrid, [(⟨0, 0, 0⟩, cornerGrid)], true) ∧
    load_or_fetch_tile (fun _ => .ok cornerGrid) [(⟨0, 0, 0⟩, cornerGrid)]
      ⟨0, 0, 0⟩ = .ok (cornerGrid, [(⟨0, 0, 0⟩, cornerGrid)], false) := by
  have h1 := claim_C5_cache_idempotence (fun _ => cornerGrid)
    (fun _ => .ok cornerGrid) (fun _ => rfl) [(⟨0, 0, 0⟩, cornerGrid)]
    (subT_single cornerGrid ⟨0, 0, 0⟩)
  have h2 := claim_C5_cache_idempotence (fun _ => cornerGrid)
    (fun _ => .ok cornerGrid) (fun _ => rfl) [] (subT_nil _)
  have hrun0 := stitch_width_zero (fun _ => .ok cornerGrid) [] 0 (-1) 1 0 5 12
  have hpart2 := (h2.2.1 0 (-1) 1 0 0 5 12 (List.replicate 5 [])
    ⟨[], [], [], []⟩ hrun0).1
  have hpart3 := h2.2.2 ⟨0, 0, 0⟩ cornerGrid rfl rfl
  exact ⟨h1.1 ⟨0, 0, 0⟩ cornerGrid (by rw [lookupKey_cons, if_pos rfl]),
    hpart2, hpart3.1, hpart3.2⟩

theorem floor_half : ⌊(1 / 2 : ℝ)⌋ = 0 := by
  rw [Int.floor_eq_zero_iff, Set.mem_Ico]
  constructor <;> norm_num

theorem yNorm_zero : yNorm 0 = 1 / 2 := by
  unfold yNorm latRad
  rw [zero_mul, zero_div, Real.sin_zero]
  norm_num

theorem mercTile_00 : mercTile 0 0 0 = ⟨0, 0, 0⟩ := by
  have hx : xNorm 0 = 1 / 2 := by
    unfold xNorm
    norm_num
  simp only [mercTile, hx, yNorm_zero, zpow_zero, mul_one]
  rw [if_neg (by norm_num), if_neg (by norm_num), floor_half]

theorem mercBounds_00 : mercBounds ⟨0, 0, 0⟩ = ⟨-180, latOfY 1, 180, latOfY 0⟩ := by
  unfold mercBounds
  norm_num

theorem latOfY_one : latOfY 1 = -latOfY 0 := by
  unfold latOfY
  rw [show Real.pi * (1 - 2 * (1 : ℝ)) = -(Real.pi * (1 - 2 * 0)) by ring,
    Real.sinh_neg, Real.arctan_neg, mul_neg]

theorem latOfY_zero_pos : 0 < latOfY 0 := by
  unfold latOfY
  have hpi := Real.pi_pos
  have hs : (0 : ℝ) < Real.sinh (Real.pi * (1 - 2 * 0)) := by
    rw [Real.sinh_pos_iff]
    nlinarith
  have ha : Real.arctan 0 < Real.arctan (Real.sinh (Real.pi * (1 - 2 * 0))) :=
    Real.arctan_strictMono hs
  rw [Real.arctan_zero] at ha
  exact mul_pos (by positivity) ha

theorem bilinear_gConst :
    bilinear_sample gConst ((1 / 2 : ℝ) * 255) ((1 / 2 : ℝ) * 255) =
      some ⟨5, 6, 7⟩ := by
  have hfl : ⌊(1 / 2 : ℝ) * 255⌋ = 127 := by
    rw [Int.floor_eq_iff]
    constructor <;> norm_num
  have e0 : nbr0 ((1 / 2 : ℝ) * 255) = 127 := hfl
  have e1 : nbr1 ((1 / 2 : ℝ) * 255) = 128 := by
    unfold nbr1
    rw [hfl]
    decide
  have hrow : pyIdx gConst (127 : ℤ) = some (List.replicate 256 ⟨5, 6, 7⟩) := by
    rw [pyIdx_nonneg _ _ (by norm_num)]
    exact getq_replicate _ 256 127 (by norm_num)
  have hrow2 : pyIdx gConst (128 : ℤ) = some (List.replicate 256 ⟨5, 6, 7⟩) := by
    rw [pyIdx_nonneg _ _ (by norm_num)]
    exact getq_replicate _ 256 128 (by norm_num)
  have hcell : pyIdx (List.replicate 256 (⟨5, 6, 7⟩ : RGB)) (127 : ℤ) =
      some ⟨5, 6, 7⟩ := by
    rw [pyIdx_nonneg _ _ (by norm_num)]
    exact getq_replicate _ 256 127 (by norm_num)
  have hcell2 : pyIdx (List.replicate 256 (⟨5, 6, 7⟩ : RGB)) (128 : ℤ) =
      some ⟨5, 6, 7⟩ := by
    rw [pyIdx_nonneg _ _ (by norm_num)]
    exact getq_replicate _ 256 128 (by norm_num)
  have hfrac : (1 / 2 : ℝ) * 255 - ((127 : ℤ) : ℝ) = 1 / 2 := by
    push_cast
    ring
  have hint : ∀ n : ℕ, interp (K := ℝ) n n n n (1 / 2) (1 / 2) = (n : ℝ) := by
    intro n
    unfold interp
    ring
  have hast : ∀ n : ℕ, astypeUint8 ((n : ℕ) : ℝ) = n := astypeUint8_natCast
  simp only [bilinear_sample, e0, e1, hrow, hrow2, hcell, hcell2, hfrac, hint, hast]

theorem samplePoint_eval :
    samplePoint (fun _ => .ok gConst) 0 0 0 ⟨[], [], [], []⟩ =
      .ok (⟨5, 6, 7⟩, ⟨[(⟨0, 0, 0⟩, gConst)], [(⟨0, 0, 0⟩, gConst)],
        [⟨0, 0, 0⟩], [⟨0, 0, 0⟩]⟩) := by
  have hfx : ((0 : ℝ) - (mercBounds ⟨0, 0, 0⟩).west) /
      ((mercBounds ⟨0, 0, 0⟩).east - (mercBounds ⟨0, 0, 0⟩).west) = 1 / 2 := by
    rw [mercBounds_00]
    norm_num
  have hfy : ((mercBounds ⟨0, 0, 0⟩).north - (0 : ℝ)) /
      ((mercBounds ⟨0, 0, 0⟩).north - (mercBounds ⟨0, 0, 0⟩).south) = 1 / 2 := by
    rw [mercBounds_00]
    show (latOfY 0 - 0) / (latOfY 0 - latOfY 1) = 1 / 2
    rw [latOfY_one, sub_zero, sub_neg_eq_add]
    have hN := latOfY_zero_pos
    rw [div_eq_iff (by linarith : latOfY 0 + latOfY 0 ≠ 0)]
    ring
  simp only [samplePoint, mercTile_00, lookupKey, load_or_fetch_tile, hfx, hfy,
    bilinear_gConst]
  rfl

theorem linspace_one_a (a b : ℚ) :
    linspace ((a : ℚ) : ℝ) ((b : ℚ) : ℝ) 1 = [((a : ℚ) : ℝ)] := by
  unfold linspace linVal
  simp [List.range_succ]

/-- Concrete full evaluation of a 1 × 1 stitch of the bbox
`[0, 1] × [-1, 0]` at zoom 0 against the constant provider: the single
sample point is `(lon, lat) = (0, 0)`, which lands in tile `(0, 0, 0)` at
in-tile coordinates `(127.5, 127.5)`; the pixel is the constant colour. -/
theorem stitch_eval :
    stitch (fun _ => .ok gConst) [] 0 (-1) 1 0 1 1 0 =
      .ok ([[⟨5, 6, 7⟩]], ⟨[(⟨0, 0, 0⟩, gConst)], [(⟨0, 0, 0⟩, gConst)],
        [⟨0, 0, 0⟩], [⟨0, 0, 0⟩]⟩) := by
  unfold stitch
  rw [linspace_one_a 0 1, linspace_one_a 0 (-1)]
  rw [show (((0 : ℚ) : ℝ)) = (0 : ℝ) by norm_num]
  simp only [runRows, runRow, samplePoint_eval]

/-- Witness for C1 at the concrete 1 × 1 stitch evaluated in
`stitch_eval`. -/
theorem claim_C1_stitched_pixels_witness :
    (0 : ℚ) < 1 ∧ (-1 : ℚ) < 0 ∧
    (([[(⟨5, 6, 7⟩ : RGB)]] : Texture).get? 0).isSome = true ∧
    (([[(⟨5, 6, 7⟩ : RGB)]] : Texture).get? 0).bind (fun row => row.get? 0) =
      pixelPure (fun _ => gConst) 0 (linVal ((0 : ℚ) : ℝ) ((1 : ℚ) : ℝ) 1 0)
        (linVal ((0 : ℚ) : ℝ) ((-1 : ℚ) : ℝ) 1 0) := by
  have h := claim_C1_stitched_pixels (fun _ => gConst) (fun _ => .ok gConst)
    (fun _ => rfl) [] (subT_nil _) 0 (-1) 1 0 1 1 0 (by norm_num) (by norm_num)
    le_rfl le_rfl [[⟨5, 6, 7⟩]]
    ⟨[(⟨0, 0, 0⟩, gConst)], [(⟨0, 0, 0⟩, gConst)], [⟨0, 0, 0⟩], [⟨0, 0, 0⟩]⟩
    stitch_eval 0 0 (by norm_num) (by norm_num)
  exact ⟨by norm_num, by norm_num, h.1, h.2⟩

theorem sample_match_full (ob : Option RGB) (stA : StitchState) (c : RGB)
    (st2 : StitchState)
    (h : (match ob with
          | some c2 => (Except.ok (c2, stA) : Except Err (RGB × StitchState))
          | none => Except.error Err.indexError) = Except.ok (c, st2)) :
    ob = some c := by
  cases ob with
  | some c2 =>
    have h2 := Except.ok.inj h
    have hc : c2 = c := congrArg Prod.fst h2
    rw [hc]
  | none => exact Except.noConfusion h

/-- A successful pixel-loop iteration records, in the memo of the state it
returns, a grid for the tile containing the sample point, and the produced
pixel is exactly the bilinear sample of that grid at the fractional
in-tile coordinates. -/
theorem samplePoint_ok_src {provider : Provider} {zoom : ℤ} {lon lat : ℝ}
    {st : StitchState} {c : RGB} {st2 : StitchState}
    (h : samplePoint provider zoom lon lat st = .ok (c, st2)) :
    ∃ g, lookupKey st2.memo (mercTile lon lat zoom) = some g ∧
      bilinear_sample g (pxOf lon lat zoom) (pyOf lon lat zoom) = some c := by
  rcases samplePoint_cases provider zoom lon lat st c st2 h with
    ⟨hm, rfl⟩ | ⟨g, hm, hrest⟩
  · obtain ⟨g, hg⟩ := Option.isSome_iff_exists.mp hm
    refine ⟨g, hg, ?_⟩
    simp only [samplePoint, hg] at h
    simpa only [pxOf, pyOf] using sample_match_full _ _ _ _ h
  · rcases hrest with ⟨hs, rfl⟩ | ⟨hs, hp, rfl⟩
    · refine ⟨g, by rw [lookupKey_cons, if_pos rfl], ?_⟩
      simp only [samplePoint, hm, load_or_fetch_tile, hs] at h
      simpa only [pxOf, pyOf] using sample_match_full _ _ _ _ h
    · refine ⟨g, by rw [lookupKey_cons, if_pos rfl], ?_⟩
      simp only [samplePoint, hm, load_or_fetch_tile, hs, hp] at h
      simpa only [pxOf, pyOf] using sample_match_full _ _ _ _ h

/-- The request memo only grows during a pixel-loop iteration: any key
already memoised keeps its grid. -/
theorem samplePoint_memoMono {provider : Provider} {zoom : ℤ} {lon lat : ℝ}
    {st : StitchState} {c : RGB} {st2 : StitchState}
    (h : samplePoint provider zoom lon lat st = .ok (c, st2)) :
    ∀ k2 g2, lookupKey st.memo k2 = some g2 → lookupKey st2.memo k2 = some g2 := by
  rcases samplePoint_cases provider zoom lon lat st c st2 h with
    ⟨-, rfl⟩ | ⟨g, hm, hrest⟩
  · exact fun k2 g2 hk => hk
  · have key : ∀ k2 g2, lookupKey st.memo k2 = some g2 →
        lookupKey ((mercTile lon lat zoom, g) :: st.memo) k2 = some g2 := by
      intro k2 g2 hk
      rw [lookupKey_cons]
      by_cases h2 : mercTile lon lat zoom = k2
      · rw [← h2] at hk
        rw [hm] at hk
        exact Option.noConfusion hk
      · rw [if_neg h2]
        exact hk
    rcases hrest with ⟨-, rfl⟩ | ⟨-, -, rfl⟩
    · exact key
    · exact key

/-- The durable store only grows during a pixel-loop iteration. -/
theorem samplePoint_storeMono {provider : Provider} {zoom : ℤ} {lon lat : ℝ}
    {st : StitchState} {c : RGB} {st2 : StitchState}
    (h : samplePoint provider zoom lon lat st = .ok (c, st2)) :
    ∀ k2, (lookupKey st.store k2).isSome = true →
      (lookupKey st2.store k2).isSome = true := by
  rcases samplePoint_cases provider zoom lon lat st c st2 h with
    ⟨-, rfl⟩ | ⟨g, hm, hrest⟩
  · exact fun k2 hk => hk
  · rcases hrest with ⟨-, rfl⟩ | ⟨-, -, rfl⟩
    · exact fun k2 hk => hk
    · exact fun k2 hk => lookupKey_cons_isSome _ _ _ _ hk

/-- A successful inner-loop run under an arbitrary provider: the memo only
grows, and every produced pixel is the bilinear sample of a grid memoised
for the tile containing that pixel's sample point. -/
theorem runRow_pixels {provider : Provider} {zoom : ℤ} {lat : ℝ} :
    ∀ {lons : List ℝ} {st : StitchState} {row : List RGB} {st2 : StitchState},
      runRow provider zoom lat lons st = .ok (row, st2) →
      (∀ k2 g2, lookupKey st.memo k2 = some g2 →
        lookupKey st2.memo k2 = some g2) ∧
      (∀ (j : ℕ) (lon : ℝ), lons.get? j = some lon →
        ∃ g, lookupKey st2.memo (mercTile lon lat zoom) = some g ∧
          row.get? j = bilinear_sample g (pxOf lon lat zoom) (pyOf lon lat zoom))
  | [], st, row, st2, h => by
    simp only [runRow] at h
    have h2 := Except.ok.inj h
    have hrow : ([] : List RGB) = row := congrArg Prod.fst h2
    have hst : st = st2 := congrArg Prod.snd h2
    rw [← hrow, ← hst]
    exact ⟨fun k2 g2 hk => hk, fun j lon hj => by simp at hj⟩
  | lon0 :: rest, st, row, st2, h => by
    cases hsp : samplePoint provider zoom lon0 lat st with
    | error e =>
      simp only [runRow, hsp] at h
      exact Except.noConfusion h
    | ok p =>
      obtain ⟨c, st1⟩ := p
      cases hrr : runRow provider zoom lat rest st1 with
      | error e =>
        simp only [runRow, hsp, hrr] at h
        exact Except.noConfusion h
      | ok q =>
        obtain ⟨cs, st3⟩ := q
        simp only [runRow, hsp, hrr] at h
        have h2 := Except.ok.inj h
        have hrow : c :: cs = row := congrArg Prod.fst h2
        have hst : st3 = st2 := congrArg Prod.snd h2
        obtain ⟨mono2, pix2⟩ := runRow_pixels hrr
        have mono1 := samplePoint_memoMono hsp
        rw [← hrow, ← hst]
        refine ⟨fun k2 g2 hk => mono2 _ _ (mono1 _ _ hk), ?_⟩
        intro j lon hj
        cases j with
        | zero =>
          have hlon : lon0 = lon := Option.some.inj hj
          obtain ⟨g, hg, hb⟩ := samplePoint_ok_src hsp
          rw [← hlon]
          exact ⟨g, mono2 _ _ hg, hb.symm⟩
        | succ j2 =>
          exact pix2 j2 lon hj

/-- A successful outer-loop run under an arbitrary provider: the memo only
grows, and every pixel of every produced row is the bilinear sample of a
grid memoised for the tile containing that pixel's sample point. -/
theorem runRows_pixels {provider : Provider} {zoom : ℤ} {lons : List ℝ} :
    ∀ {lats : List ℝ} {st : StitchState} {t : Texture} {st2 : StitchState},
      runRows provider zoom lons lats st = .ok (t, st2) →
      (∀ k2 g2, lookupKey st.memo k2 = some g2 →
        lookupKey st2.memo k2 = some g2) ∧
      (∀ (i : ℕ) (lat : ℝ), lats.get? i = some lat →
        ∃ row, t.get? i = some row ∧
          ∀ (j : ℕ) (lon : ℝ), lons.get? j = some lon →
            ∃ g, lookupKey st2.memo (mercTile lon lat zoom) = some g ∧
              row.get? j =
                bilinear_sample g (pxOf lon lat zoom) (pyOf lon lat zoom))
  | [], st, t, st2, h => by
    simp only [runRows] at h
    have h2 := Except.ok.inj h
    have ht : ([] : Texture) = t := congrArg Prod.fst h2
    have hst : st = st2 := congrArg Prod.snd h2
    rw [← ht, ← hst]
    exact ⟨fun k2 g2 hk => hk, fun i lat hi => by simp at hi⟩
  | lat0 :: rest, st, t, st2, h => by
    cases hrw : runRow provider zoom lat0 lons st with
    | error e =>
      simp only [runRows, hrw] at h
      exact Except.noConfusion h
    | ok p =>
      obtain ⟨row, st1⟩ := p
      cases hrr : runRows provider zoom lons rest st1 with
      | error e =>
        simp only [runRows, hrw, hrr] at h
        exact Except.noConfusion h
      | ok q =>
        obtain ⟨rows, st3⟩ := q
        simp only [runRows, hrw, hrr] at h
        have h2 := Except.ok.inj h
        have ht : row :: rows = t := congrArg Prod.fst h2
        have hst : st3 = st2 := congrArg Prod.snd h2
        obtain ⟨mono1, pix1⟩ := runRow_pixels hrw
        obtain ⟨mono2, pix2⟩ := runRows_pixels hrr
        rw [← ht, ← hst]
        refine ⟨fun k2 g2 hk => mono2 _ _ (mono1 _ _ hk), ?_⟩
        intro i lat hi
        cases i with
        | zero =>
          have hl : lat0 = lat := Option.some.inj hi
          refine ⟨row, rfl, ?_⟩
          intro j lon hj
          obtain ⟨g, hg, hb⟩ := pix1 j lon hj
          rw [← hl]
          exact ⟨g, mono2 _ _ hg, hb⟩
        | succ i2 =>
          exact pix2 i2 lat hi

theorem sample_match_error (ob : Option RGB) (stA : StitchState) (e : Err)
    (h : (match ob with
          | some c2 => (Except.ok (c2, stA) : Except Err (RGB × StitchState))
          | none => Except.error Err.indexError) = Except.error e) :
    e = Err.indexError := by
  cases ob with
  | some c2 => exact Except.noConfusion h
  | none => exact (Except.error.inj h).symm

/-- Error provenance of one pixel-loop iteration: a failing iteration
either raised an index error in the resampler, or its tile was absent from
the durable store and the provider failed on it with exactly the returned
error. -/
theorem samplePoint_error {provider : Provider} {zoom : ℤ} {lon lat : ℝ}
    {st : StitchState} {e : Err}
    (h : samplePoint provider zoom lon lat st = .error e) :
    e = .indexError ∨
      (lookupKey st.store (mercTile lon lat zoom) = none ∧
       provider (mercTile lon lat zoom) = .error e) := by
  cases hm : lookupKey st.memo (mercTile lon lat zoom) with
  | some g =>
    left
    simp only [samplePoint, hm] at h
    exact sample_match_error _ _ _ h
  | none =>
    cases hs : lookupKey st.store (mercTile lon lat zoom) with
    | some g =>
      left
      simp only [samplePoint, hm, load_or_fetch_tile, hs] at h
      exact sample_match_error _ _ _ h
    | none =>
      cases hp : provider (mercTile lon lat zoom) with
      | ok g =>
        left
        simp only [samplePoint, hm, load_or_fetch_tile, hs, hp] at h
        exact sample_match_error _ _ _ h
      | error e2 =>
        simp only [samplePoint, hm, load_or_fetch_tile, hs, hp] at h
        right
        have he : e2 = e := Except.error.inj h
        exact ⟨rfl, by rw [he]⟩

/-- The durable store only grows during a successful inner-loop run. -/
theorem runRow_storeMono {provider : Provider} {zoom : ℤ} {lat : ℝ} :
    ∀ {lons : List ℝ} {st : StitchState} {row : List RGB} {st2 : StitchState},
      runRow provider zoom lat lons st = .ok (row, st2) →
      ∀ k2, (lookupKey st.store k2).isSome = true →
        (lookupKey st2.store k2).isSome = true
  | [], st, row, st2, h => by
    simp only [runRow] at h
    have hst : st = st2 := congrArg Prod.snd (Except.ok.inj h)
    rw [← hst]
    exact fun k2 hk => hk
  | lon :: rest, st, row, st2, h => by
    cases hsp : samplePoint provider zoom lon lat st with
    | error e =>
      simp only [runRow, hsp] at h
      exact Except.noConfusion h
    | ok p =>
      obtain ⟨c, st1⟩ := p
      cases hrr : runRow provider zoom lat rest st1 with
      | error e =>
        simp only [runRow, hsp, hrr] at h
        exact Except.noConfusion h
      | ok q =>
        obtain ⟨cs, st3⟩ := q
        simp only [runRow, hsp, hrr] at h
        have hst : st3 = st2 := congrArg Prod.snd (Except.ok.inj h)
        rw [← hst]
        exact fun k2 hk => runRow_storeMono hrr k2 (samplePoint_storeMono hsp k2 hk)

/-- Error provenance of a failing inner-loop run: an index error, or a
provider failure — with exactly the returned error — on a tile that was
absent from the durable store when the run started. -/
theorem runRow_error_src {provider : Provider} {zoom : ℤ} {lat : ℝ} :
    ∀ {lons : List ℝ} {st : StitchState} {e : Err},
      runRow provider zoom lat lons st = .error e →
      e = .indexError ∨
        ∃ k, lookupKey st.store k = none ∧ provider k = .error e
  | [], st, e, h => by
    simp only [runRow] at h
    exact Except.noConfusion h
  | lon :: rest, st, e, h => by
    cases hsp : samplePoint provider zoom lon lat st with
    | error e2 =>
      simp only [runRow, hsp] at h
      have he : e2 = e := Except.error.inj h
      rcases samplePoint_error (he ▸ hsp) with h2 | ⟨h3, h4⟩
      · exact Or.inl h2
      · exact Or.inr ⟨mercTile lon lat zoom, h3, h4⟩
    | ok p =>
      obtain ⟨c, st1⟩ := p
      cases hrr : runRow provider zoom lat rest st1 with
      | error e2 =>
        simp only [runRow, hsp, hrr] at h
        have he : e2 = e := Except.error.inj h
        rcases runRow_error_src (he ▸ hrr) with h2 | ⟨k, h3, h4⟩
        · exact Or.inl h2
        · refine Or.inr ⟨k, ?_, h4⟩
          cases hk : lookupKey st.store k with
          | none => rfl
          | some g2 =>
            exfalso
            have h5 := samplePoint_storeMono hsp k (by rw [hk]; rfl)
            rw [h3] at h5
            simp at h5
      | ok q =>
        obtain ⟨cs, st3⟩ := q
        simp only [runRow, hsp, hrr] at h
        exact Except.noConfusion h

/-- Error provenance of a failing outer-loop run: an index error, or a
provider failure — with exactly the returned error — on a tile that was
absent from the durable store when the run started. -/
theorem runRows_error_src {provider : Provider} {zoom : ℤ} {lons : List ℝ} :
    ∀ {lats : List ℝ} {st : StitchState} {e : Err},
      runRows provider zoom lons lats st = .error e →
      e = .indexError ∨
        ∃ k, lookupKey st.store k = none ∧ provider k = .error e
  | [], st, e, h => by
    simp only [runRows] at h
    exact Except.noConfusion h
  | lat :: rest, st, e, h => by
    cases hrw : runRow provider zoom lat lons st with
    | error e2 =>
      simp only [runRows, hrw] at h
      have he : e2 = e := Except.error.inj h
      exact runRow_error_src (he ▸ hrw)
    | ok p =>
      obtain ⟨row, st1⟩ := p
      cases hrr : runRows provider zoom lons rest st1 with
      | error e2 =>
        simp only [runRows, hrw, hrr] at h
        have he : e2 = e := Except.error.inj h
        rcases runRows_error_src (he ▸ hrr) with h2 | ⟨k, h3, h4⟩
        · exact Or.inl h2
        · refine Or.inr ⟨k, ?_, h4⟩
          cases hk : lookupKey st.store k with
          | none => rfl
          | some g2 =>
            exfalso
            have h5 := runRow_storeMono hrw k (by rw [hk]; rfl)
            rw [h3] at h5
            simp at h5
      | ok q =>
        obtain ⟨rows, st3⟩ := q
        simp only [runRows, hrw, hrr] at h
        exact Except.noConfusion h

theorem mercTile_002 : mercTile 0 0 2 = ⟨2, 2, 2⟩ := by
  have hx : xNorm 0 = 1 / 2 := by
    unfold xNorm
    norm_num
  have hz : ((2 : ℝ) ^ (2 : ℤ)) = 4 := by norm_num
  have hfl : ⌊(1 / 2 : ℝ) * 4⌋ = 2 := by
    rw [show (1 / 2 : ℝ) * 4 = ((2 : ℤ) : ℝ) by norm_num, Int.floor_intCast]
  simp only [mercTile, hx, yNorm_zero, hz]
  rw [if_neg (by norm_num : ¬(1 / 2 : ℝ) ≤ 0),
    if_neg (by norm_num : ¬(1 : ℝ) ≤ 1 / 2), hfl]

theorem mercTile_9002 : mercTile 90 0 2 = ⟨3, 2, 2⟩ := by
  have hx : xNorm 90 = 3 / 4 := by
    unfold xNorm
    norm_num
  have hz : ((2 : ℝ) ^ (2 : ℤ)) = 4 := by norm_num
  have hflx : ⌊(3 / 4 : ℝ) * 4⌋ = 3 := by
    rw [show (3 / 4 : ℝ) * 4 = ((3 : ℤ) : ℝ) by norm_num, Int.floor_intCast]
  have hfly : ⌊(1 / 2 : ℝ) * 4⌋ = 2 := by
    rw [show (1 / 2 : ℝ) * 4 = ((2 : ℤ) : ℝ) by norm_num, Int.floor_intCast]
  simp only [mercTile, hx, yNorm_zero, hz]
  rw [if_neg (by norm_num : ¬(3 / 4 : ℝ) ≤ 0),
    if_neg (by norm_num : ¬(1 : ℝ) ≤ 3 / 4),
    if_neg (by norm_num : ¬(1 / 2 : ℝ) ≤ 0),
    if_neg (by norm_num : ¬(1 : ℝ) ≤ 1 / 2), hflx, hfly]

theorem mercBounds_222 :
    mercBounds ⟨2, 2, 2⟩ = ⟨0, latOfY (3 / 4), 90, latOfY (1 / 2)⟩ := by
  unfold mercBounds
  norm_num

theorem latOfY_half : latOfY (1 / 2) = 0 := by
  unfold latOfY
  rw [show Real.pi * (1 - 2 * (1 / 2 : ℝ)) = 0 by ring, Real.sinh_zero,
    Real.arctan_zero, mul_zero]

theorem bilinear_gConst_low :
    bilinear_sample gConst ((0 : ℝ) * 255) ((0 : ℝ) * 255) = some ⟨5, 6, 7⟩ := by
  have hfl : ⌊((0 : ℝ) * 255)⌋ = 0 := by
    rw [show ((0 : ℝ) * 255) = ((0 : ℤ) : ℝ) by norm_num, Int.floor_intCast]
  have e0 : nbr0 ((0 : ℝ) * 255) = 0 := hfl
  have e1 : nbr1 ((0 : ℝ) * 255) = 1 := by
    unfold nbr1
    rw [hfl]
    decide
  have hrow : pyIdx gConst (0 : ℤ) = some (List.replicate 256 ⟨5, 6, 7⟩) := by
    rw [pyIdx_nonneg _ _ (by norm_num)]
    exact getq_replicate _ 256 0 (by norm_num)
  have hrow2 : pyIdx gConst (1 : ℤ) = some (List.replicate 256 ⟨5, 6, 7⟩) := by
    rw [pyIdx_nonneg _ _ (by norm_num)]
    exact getq_replicate _ 256 1 (by norm_num)
  have hcell : pyIdx (List.replicate 256 (⟨5, 6, 7⟩ : RGB)) (0 : ℤ) =
      some ⟨5, 6, 7⟩ := by
    rw [pyIdx_nonneg _ _ (by norm_num)]
    exact getq_replicate _ 256 0 (by norm_num)
  have hcell2 : pyIdx (List.replicate 256 (⟨5, 6, 7⟩ : RGB)) (1 : ℤ) =
      some ⟨5, 6, 7⟩ := by
    rw [pyIdx_nonneg _ _ (by norm_num)]
    exact getq_replicate _ 256 1 (by norm_num)
  have hfrac : ((0 : ℝ) * 255) - ((0 : ℤ) : ℝ) = 0 := by
    push_cast
    ring
  have hint : ∀ n : ℕ, interp (K := ℝ) n n n n (0 : ℝ) (0 : ℝ) = (n : ℝ) := by
    intro n
    unfold interp
    ring
  have hast : ∀ n : ℕ, astypeUint8 ((n : ℕ) : ℝ) = n := astypeUint8_natCast
  simp only [bilinear_sample, e0, e1, hrow, hrow2, hcell, hcell2, hfrac, hint, hast]

theorem provMixed_good : provMixed ⟨2, 2, 2⟩ = .ok gConst := by
  unfold provMixed
  rw [if_neg (by decide)]

theorem provMixed_bad : provMixed ⟨3, 2, 2⟩ = .error .fetch := by
  unfold provMixed
  rw [if_pos rfl]

/-- First pixel of the mid-stitch failure scenario: the sample point
`(0, 0)` at zoom 2 lands in tile `(2, 2, 2)` at in-tile coordinates
`(0, 0)`; the mixed provider serves that tile, so the pixel succeeds and
the tile is fetched, memoised and persisted. -/
theorem samplePoint_mid1 :
    samplePoint provMixed 2 0 0 ⟨[], [], [], []⟩ =
      .ok (⟨5, 6, 7⟩, ⟨[(⟨2, 2, 2⟩, gConst)], [(⟨2, 2, 2⟩, gConst)],
        [⟨2, 2, 2⟩], [⟨2, 2, 2⟩]⟩) := by
  have hfx : ((0 : ℝ) - (mercBounds ⟨2, 2, 2⟩).west) /
      ((mercBounds ⟨2, 2, 2⟩).east - (mercBounds ⟨2, 2, 2⟩).west) = 0 := by
    rw [mercBounds_222]
    norm_num
  have hfy : ((mercBounds ⟨2, 2, 2⟩).north - (0 : ℝ)) /
      ((mercBounds ⟨2, 2, 2⟩).north - (mercBounds ⟨2, 2, 2⟩).south) = 0 := by
    rw [mercBounds_222]
    show (latOfY (1 / 2) - 0) / (latOfY (1 / 2) - latOfY (3 / 4)) = 0
    rw [latOfY_half]
    norm_num
  simp only [samplePoint, mercTile_002, lookupKey, load_or_fetch_tile,
    provMixed_good, hfx, hfy, bilinear_gConst_low]
  rfl

/-- Second pixel of the mid-stitch failure scenario: the sample point
`(90, 0)` at zoom 2 lands in tile `(3, 2, 2)`, which is neither memoised
nor stored; the mixed provider fails on it, so the iteration aborts with
the fetch error. -/
theorem samplePoint_mid2 :
    samplePoint provMixed 2 90 0 ⟨[(⟨2, 2, 2⟩, gConst)], [(⟨2, 2, 2⟩, gConst)],
      [⟨2, 2, 2⟩], [⟨2, 2, 2⟩]⟩ = .error .fetch := by
  have hm : lookupKey [((⟨2, 2, 2⟩ : TileKey), gConst)] (⟨3, 2, 2⟩ : TileKey) =
      none := by
    rw [lookupKey_cons, if_neg (by decide)]
    rfl
  simp only [samplePoint, mercTile_9002, hm, load_or_fetch_tile, provMixed_bad]

theorem linspace_two :
    linspace ((0 : ℚ) : ℝ) ((90 : ℚ) : ℝ) 2 = [(0 : ℝ), (90 : ℝ)] := by
  unfold linspace linVal
  rw [show (List.range 2) = [0, 1] by rfl]
  simp only [List.map_cons, List.map_nil]
  norm_num

/-- Concrete mid-stitch failure: a 1 × 2 stitch of the bbox
`[0, 90] × [-1, 0]` at zoom 2 under the mixed provider.  Its two sample
points are `(0, 0)` in tile `(2, 2, 2)` — served successfully — and
`(90, 0)` in tile `(3, 2, 2)`, on which the provider fails; the whole
stitch aborts with that fetch error. -/
theorem stitch_midfail :
    stitch provMixed [] 0 (-1) 90 0 2 1 2 = .error .fetch := by
  unfold stitch
  rw [linspace_two, linspace_one_a 0 (-1)]
  rw [show (((0 : ℚ) : ℝ)) = (0 : ℝ) by norm_num]
  simp only [runRows, runRow, samplePoint_mid1, samplePoint_mid2]

/-- C4: failure propagation — no partial and no placeholder rasters.
(1) Under ANY provider (including mixed providers that fail on only some
tiles) and any durable store, a successful stitch is a full H × W raster
in which every pixel is the bilinear sample, at that pixel's fractional
in-tile coordinates, of a tile grid actually obtained and memoised for the
tile containing that pixel's sample point — missing tiles are never filled
with placeholder pixels.  (2) Whenever a stitch fails, no raster is
returned and the error is exactly the underlying per-tile failure: a
provider error — returned verbatim — on a tile absent from the durable
store, or an index error escaping the resampler.  (3) Concretely, a
failure mid-stitch propagates: a 1 × 2 stitch whose two sample points land
in tiles `(2, 2, 2)` and `(3, 2, 2)`, under a mixed provider that serves
the first tile but fails on the second, fetches the first tile
successfully and then aborts the whole request with the second tile's
fetch error. -/
theorem claim_C4_failure_propagation :
    (∀ (provider : Provider) (store : DiskStore) (ml mt Ml Mt : ℚ)
      (W H : ℕ) (zoom : ℤ) (t : Texture) (st2 : StitchState),
      stitch provider store ml mt Ml Mt W H zoom = .ok (t, st2) →
        t.length = H ∧ (∀ row ∈ t, row.length = W) ∧
        ∀ i j : ℕ, i < H → j < W →
          ∃ g, lookupKey st2.memo
              (mercTile (linVal ((ml : ℚ) : ℝ) ((Ml : ℚ) : ℝ) W j)
                (linVal ((Mt : ℚ) : ℝ) ((mt : ℚ) : ℝ) H i) zoom) = some g ∧
            (t.get? i).bind (fun row => row.get? j) =
              bilinear_sample g
                (pxOf (linVal ((ml : ℚ) : ℝ) ((Ml : ℚ) : ℝ) W j)
                  (linVal ((Mt : ℚ) : ℝ) ((mt : ℚ) : ℝ) H i) zoom)
                (pyOf (linVal ((ml : ℚ) : ℝ) ((Ml : ℚ) : ℝ) W j)
                  (linVal ((Mt : ℚ) : ℝ) ((mt : ℚ) : ℝ) H i) zoom)) ∧
    (∀ (provider : Provider) (store : DiskStore) (ml mt Ml Mt : ℚ)
      (W H : ℕ) (zoom : ℤ) (e : Err),
      stitch provider store ml mt Ml Mt W H zoom = .error e →
        e = .indexError ∨
          ∃ k, lookupKey store k = none ∧ provider k = .error e) ∧
    mercTile 0 0 2 = ⟨2, 2, 2⟩ ∧
    mercTile 90 0 2 = ⟨3, 2, 2⟩ ∧
    provMixed ⟨2, 2, 2⟩ = .ok gConst ∧
    provMixed ⟨3, 2, 2⟩ = .error .fetch ∧
    stitch provMixed [] 0 (-1) 90 0 2 1 2 = .error .fetch := by
  refine ⟨?_, ?_, mercTile_002, mercTile_9002, provMixed_good, provMixed_bad,
    stitch_midfail⟩
  · intro provider store ml mt Ml Mt W H zoom t st2 hrun
    unfold stitch at hrun
    obtain ⟨h1, h2⟩ := runRows_shape hrun
    obtain ⟨-, hpix⟩ := runRows_pixels hrun
    rw [linspace_length] at h1
    refine ⟨h1, ?_, ?_⟩
    · intro row hr
      have h3 := h2 row hr
      rwa [linspace_length] at h3
    · intro i j hi hj
      obtain ⟨row, hrow, hcell⟩ := hpix i _ (linspace_get _ _ _ _ hi)
      obtain ⟨g, hg, hb⟩ := hcell j _ (linspace_get _ _ _ _ hj)
      refine ⟨g, hg, ?_⟩
      rw [hrow, Option.some_bind]
      exact hb
  · intro provider store ml mt Ml Mt W H zoom e hrun
    unfold stitch at hrun
    exact runRows_error_src hrun

/-- Witness for C4: the raster-shape guarantee instantiated at the concrete
1 × 1 run evaluated in `stitch_eval`, together with the concrete mid-stitch
failure and the mixed provider's success on the first tile. -/
theorem claim_C4_failure_propagation_witness :
    ([[(⟨5, 6, 7⟩ : RGB)]] : Texture).length = 1 ∧
    stitch provMixed [] 0 (-1) 90 0 2 1 2 = .error .fetch ∧
    provMixed ⟨2, 2, 2⟩ = .ok gConst := by
  have h := claim_C4_failure_propagation
  exact ⟨(h.1 (fun _ => .ok gConst) [] 0 (-1) 1 0 1 1 0 _ _ stitch_eval).1,
    h.2.2.2.2.2.2, h.2.2.2.2.1⟩
